import Mathlib

/-!
Verification of the ramp-web-scrapping extraction pipeline.

The repository fetches an HTML page, extracts characters embedded in a
four-level nested DOM pattern using three fallback strategies (XPath,
JSDOM, Regex), joins them into a URL and fetches that URL to obtain a
flag.  This file gives a shallow embedding of the data model and the
operations (src/strategies/XPathStrategy.js, the JSDOM strategy and the
Regex strategy in src/strategies/RegexStrategy.js, the orchestrator
src/services/HtmlParser.js, the retrying fetcher
src/services/HttpClient.js, the validator src/utils/Validator.js and the
pipeline driver UrlExtractor) and proves or refutes the specification's
claims about them.

Strings are modelled as `List Char`.  Machine-level details that live in
third-party libraries (the WHATWG `new URL` check, the DOM
`getAttribute` null-vs-present distinction) are modelled by their
standard, documented semantics, as noted on each definition.
-/

/-- Strings of the model: lists of characters. -/
abbrev Str := List Char

/-- Conversion from Lean string literals into the model's strings. -/
def str (s : String) : Str := s.data

/-- Whitespace characters, as recognised by JavaScript's `trim` and by
the model's document validation (ASCII subset of the JS `\s` class). -/
def isWS (c : Char) : Bool :=
  c == ' ' || c == '\t' || c == '\n' || c == '\r' || c == '\x0b' || c == '\x0c'

/-- `leadEq n h` holds when `n` is a leading segment of `h`
(character-for-character equality). -/
def leadEq : Str → Str → Bool
  | [], _ => true
  | _ :: _, [] => false
  | a :: as, b :: bs => a == b && leadEq as bs

/-- Substring containment test: JavaScript's `*=` attribute selector and
XPath's `contains` both test that the needle occurs somewhere in the
haystack. -/
def hasSub (n : Str) : Str → Bool
  | [] => leadEq n []
  | c :: cs => leadEq n (c :: cs) || hasSub n cs

/-- JavaScript `String.prototype.trim`: drop whitespace from both ends. -/
def trimL (s : Str) : Str :=
  ((s.dropWhile isWS).reverse.dropWhile isWS).reverse

/-- Scan forward to the character after the first `>`; `none` when no
`>` occurs.  Helper for the tag-stripping replace in `UrlExtractor._fetchFlag`. -/
def cutGt : Str → Option Str
  | [] => none
  | c :: cs => if c == '>' then some cs else cutGt cs

theorem cutGt_length {cs r : Str} (h : cutGt cs = some r) : r.length < cs.length := by
  induction cs with
  | nil => simp [cutGt] at h
  | cons c cs ih =>
    by_cases hc : c == '>'
    · simp [cutGt, hc] at h
      simp [← h, List.length_cons, Nat.lt_succ_self]
    · simp [cutGt, hc] at h
      exact Nat.lt_trans (ih h) (Nat.lt_succ_self _)

/-- Fuelled scanner for the tag-stripping replace; the fuel only needs
to cover the input length, which each step strictly decreases. -/
def stripTagsF : Nat → Str → Str
  | 0, s => s
  | _ + 1, [] => []
  | f + 1, c :: cs =>
    if c == '<' then
      match cutGt cs with
      | some rest => stripTagsF f rest
      | none => c :: stripTagsF f cs
    else c :: stripTagsF f cs

/-- `response.replace(/<[^>]*>/g, "")` from `UrlExtractor._fetchFlag`:
every maximal `<...>` run (a `<` up to the first following `>`) is
removed; a `<` with no later `>` cannot be matched and is kept. -/
def stripTags (s : Str) : Str := stripTagsF s.length s

namespace PATTERN

/-- `PATTERN.SECTION_DATA_ID` from src/config/constants.js. -/
def SECTION_DATA_ID : Str := str "92"

/-- `PATTERN.ARTICLE_DATA_CLASS` from src/config/constants.js. -/
def ARTICLE_DATA_CLASS : Str := str "45"

/-- `PATTERN.DIV_DATA_TAG` from src/config/constants.js. -/
def DIV_DATA_TAG : Str := str "78"

/-- `PATTERN.B_CLASS` from src/config/constants.js. -/
def B_CLASS : Str := str "ref"

/-- `PATTERN.VALUE_ATTRIBUTE` from src/config/constants.js. -/
def VALUE_ATTRIBUTE : String := "value"

end PATTERN

namespace HTTP

/-- `HTTP.MAX_RETRIES` from src/config/constants.js. -/
def MAX_RETRIES : Nat := 3

end HTTP

/-- Characters allowed in url scheme names, for the model of the WHATWG
URL parser (letters, digits, `+`, `-`, `.`). -/
def schemeChar (c : Char) : Bool :=
  c.isAlpha || c.isDigit || c == '+' || c == '-' || c == '.'

/-- Modelled from the behaviour of JavaScript's `new URL(url)` used by
`Validator.validateUrl` (src/utils/Validator.js): the input is accepted
exactly when it starts with a scheme — an ASCII letter followed by
scheme characters — then a colon.  The model keeps only the part of the
WHATWG grammar the claims exercise; in particular the empty string and
scheme-less strings are rejected, scheme-prefixed strings accepted. -/
def isValidUrl (s : Str) : Bool :=
  match s with
  | [] => false
  | c :: rest =>
    c.isAlpha &&
      (match rest.dropWhile schemeChar with
       | ':' :: _ => true
       | _ => false)

/-- `Validator.validateUrl` (src/utils/Validator.js): throws on a string
that does not parse as a URL, returns normally otherwise. -/
def Validator.validateUrl (s : Str) : Except Unit Unit :=
  if isValidUrl s then .ok () else .error ()

/-- `Validator.validateHtml` (src/utils/Validator.js): accepts exactly
the strings that are non-empty after trimming; empty and
whitespace-only content is rejected. -/
def Validator.validateHtml (s : Str) : Bool :=
  !(trimL s).isEmpty

/-- DOM tree node: an element with tag, attribute list and children, or
a text node.  Documents parsed by jsdom / xmldom are modelled as values
of this type. -/
inductive Dom where
  | el (tag : String) (attrs : List (String × Str)) (kids : List Dom)
  | tx (s : Str)

/-- First attribute with the given name, if present.  This is the
standard DOM `getAttribute` (null when the attribute is absent, the
empty string when present but empty); both jsdom and xmldom are
modelled with this standard semantics. -/
def attrLookup (attrs : List (String × Str)) (name : String) : Option Str :=
  match attrs with
  | [] => none
  | (k, v) :: rest => if k = name then some v else attrLookup rest name

/-- `getAttribute` on a node (text nodes have no attributes). -/
def Dom.getAttr (n : Dom) (name : String) : Option Str :=
  match n with
  | .el _ attrs _ => attrLookup attrs name
  | .tx _ => none

/-- Tag of a node (text nodes get a name no element uses). -/
def Dom.tag : Dom → String
  | .el t _ _ => t
  | .tx _ => "#text"

/-- Children of a node. -/
def Dom.kids : Dom → List Dom
  | .el _ _ ks => ks
  | .tx _ => []

mutual

/-- Preorder (document-order) traversal of a node, the node included. -/
def pre : Dom → List Dom
  | .el t a ks => .el t a ks :: preL ks
  | .tx s => [.tx s]

/-- Preorder traversal of a list of sibling nodes. -/
def preL : List Dom → List Dom
  | [] => []
  | n :: ns => pre n ++ preL ns

end

/-- Proper descendants of a node in document order: what
`node.querySelectorAll` searches. -/
def kidsPre (n : Dom) : List Dom := preL n.kids

/-- Attribute-substring selector `tag[attr*="sub"]` used by the JSDOM
strategy, identical to the XPath test `//tag[contains(@attr,'sub')]`. -/
def attrContains (n : Dom) (tag : String) (attr : String) (sub : Str) : Bool :=
  n.tag == tag &&
    (match n.getAttr attr with
     | some v => hasSub sub v
     | none => false)

/-- Attribute-equality test `tag[@attr='val']` used by the XPath
strategy's innermost step. -/
def attrEquals (n : Dom) (tag : String) (attr : String) (val : Str) : Bool :=
  n.tag == tag &&
    (match n.getAttr attr with
     | some v => v == val
     | none => false)

theorem dropWhile_len_le (p : Char → Bool) (l : Str) : (l.dropWhile p).length ≤ l.length := by
  induction l with
  | nil => simp
  | cons c cs ih =>
    by_cases hc : p c
    · simp [List.dropWhile, hc]
      exact Nat.le_succ_of_le ih
    · simp [List.dropWhile, hc]

/-- Fuelled word splitter; fuel covering the input length suffices. -/
def splitWSF : Nat → Str → List Str
  | 0, _ => []
  | _ + 1, [] => []
  | f + 1, c :: cs =>
    if isWS c then splitWSF f cs
    else (c :: cs.takeWhile (fun d => !isWS d)) :: splitWSF f (cs.dropWhile (fun d => !isWS d))

/-- Whitespace-separated tokens of a string: the class list a CSS class
selector `.ref` consults. -/
def splitWS (s : Str) : List Str := splitWSF s.length s

/-- Membership of a string in a list of strings. -/
def memStr (x : Str) : List Str → Bool
  | [] => false
  | y :: ys => x == y || memStr x ys

/-- CSS class selector `b.ref`: the element's `class` attribute, split
on whitespace, contains the token. -/
def hasClassTok (n : Dom) (tok : Str) : Bool :=
  match n.getAttr "class" with
  | some v => memStr tok (splitWS v)
  | none => false

/-- The `b` selector `b.${B_CLASS}[${VALUE_ATTRIBUTE}]` built by
`JSDOMStrategy._buildSelector`: tag `b`, class list containing `ref`,
`value` attribute present. -/
def jsdomBSel (n : Dom) : Bool :=
  n.tag == "b" && hasClassTok n PATTERN.B_CLASS && (n.getAttr PATTERN.VALUE_ATTRIBUTE).isSome

/-- `document.querySelectorAll(selector.section)`: every element of the
document matching `section[data-id*="92"]`, in document order. -/
def jsSections (doc : Dom) : List Dom :=
  (pre doc).filter (fun n => attrContains n "section" "data-id" PATTERN.SECTION_DATA_ID)

/-- `section.querySelectorAll(selector.article)`: matching descendants
of the section. -/
def jsArticles (sec : Dom) : List Dom :=
  (kidsPre sec).filter (fun n => attrContains n "article" "data-class" PATTERN.ARTICLE_DATA_CLASS)

/-- `article.querySelectorAll(selector.div)`. -/
def jsDivs (art : Dom) : List Dom :=
  (kidsPre art).filter (fun n => attrContains n "div" "data-tag" PATTERN.DIV_DATA_TAG)

/-- `div.querySelectorAll(selector.b)`. -/
def jsBs (dv : Dom) : List Dom :=
  (kidsPre dv).filter jsdomBSel

/-- The body of the outer `sections.forEach` loop of
`JSDOMStrategy.extract`: the characters contributed by one section. -/
def jsFromSection (sec : Dom) : List Str :=
  (jsArticles sec).flatMap
    fun art =>
      (jsDivs art).flatMap
        fun dv =>
          (jsBs dv).filterMap fun b => b.getAttr PATTERN.VALUE_ATTRIBUTE

/-- `JSDOMStrategy.extract` (src/strategies — JSDOM strategy): nested
`querySelectorAll` loops over sections, articles, divs and `b` tags,
each a document-order descendant search, pushing the `value` attribute
of every selected `b` that has one. -/
def JSDOMStrategy.extract (doc : Dom) : List Str :=
  (jsSections doc).flatMap jsFromSection

mutual

/-- Walk for the XPath expression
`//section[contains(@data-id,'92')]//article[contains(@data-class,'45')]//div[contains(@data-tag,'78')]//b[@class='ref']`
built by `XPathStrategy._buildXPathExpression`.  The flags record
whether some strict ancestor chain section→article→div with the
required attribute tests has been seen; a `b` with `class` exactly
`ref` found below such a chain is reported.  Nodes are visited in
preorder, so the node-set comes back in document order (the ordering
the `xpath` library provides for such expressions), and the `value`
attribute is pushed when present, as in `XPathStrategy.extract`. -/
def xgo (s a d : Bool) : Dom → List Str
  | .tx _ => []
  | .el tg at_ ks =>
    (if d && attrEquals (.el tg at_ ks) "b" "class" PATTERN.B_CLASS then
       (match attrLookup at_ PATTERN.VALUE_ATTRIBUTE with
        | some v => [v]
        | none => [])
     else []) ++
      xgoL (s || attrContains (.el tg at_ ks) "section" "data-id" PATTERN.SECTION_DATA_ID)
        (a || (s && attrContains (.el tg at_ ks) "article" "data-class" PATTERN.ARTICLE_DATA_CLASS))
        (d || (a && attrContains (.el tg at_ ks) "div" "data-tag" PATTERN.DIV_DATA_TAG)) ks

/-- `xgo` over a list of siblings. -/
def xgoL (s a d : Bool) : List Dom → List Str
  | [] => []
  | n :: ns => xgo s a d n ++ xgoL s a d ns

end

/-- `XPathStrategy.extract` (src/strategies/XPathStrategy.js): evaluate
the combined descendant expression on the whole document and read the
`value` attributes of the resulting node-set in document order. -/
def XPathStrategy.extract (doc : Dom) : List Str := xgo false false false doc

/-- Case-insensitive character comparison, for the `i` regex flag. -/
def chEq (a b : Char) : Bool := a.toLower == b.toLower

/-- One component of the regex built by
`RegexStrategy._buildRegexPattern`: a case-insensitive literal, a
greedy star over a character class (`[^>]*`, `[^"]*`), the lazy
any-character connector `[\s\S]*?`, or the capturing greedy star
`([^"]*)`. -/
inductive RComp where
  | lit (s : Str)
  | star (p : Char → Bool)
  | anyLazy
  | cap (p : Char → Bool)

/-- Result of an anchored match attempt: the captured group (if the
capture participated) and the input remaining after the match. -/
abbrev MRes := Option (Option Str × Str)

/-- Strip a case-insensitive literal from the front of the input. -/
def stripLit : Str → Str → Option Str
  | [], input => some input
  | _ :: _, [] => none
  | l :: ls, c :: cs => if chEq l c then stripLit ls cs else none

/-- Greedy-star backtracking loop: try the continuation after consuming
`n` characters, then `n - 1`, … down to `0` (longest first, as a JS
greedy quantifier does). -/
def goStar (k : Str → MRes) (input : Str) : Nat → MRes
  | 0 => k input
  | n + 1 =>
    match k (input.drop (n + 1)) with
    | some r => some r
    | none => goStar k input n

/-- Greedy star over a character class: consume up to the maximal run
of class characters, backtracking from longest to shortest. -/
def starG (p : Char → Bool) (k : Str → MRes) (input : Str) : MRes :=
  goStar k input (input.takeWhile p).length

/-- Lazy `[\s\S]*?` connector: try the continuation at the current
position first, then skip one character at a time (shortest first). -/
def lazyA (k : Str → MRes) : Str → MRes
  | [] => k []
  | c :: cs =>
    match k (c :: cs) with
    | some r => some r
    | none => lazyA k cs

/-- Capturing greedy star `([^"]*)`: like `goStar` but records the
consumed prefix as the capture group. -/
def goCap (k : Str → MRes) (input : Str) : Nat → MRes
  | 0 =>
    match k input with
    | some (_, rest) => some (some [], rest)
    | none => none
  | n + 1 =>
    match k (input.drop (n + 1)) with
    | some (_, rest) => some (some (input.take (n + 1)), rest)
    | none => goCap k input n

/-- Capturing star entry point (longest first). -/
def capG (p : Char → Bool) (k : Str → MRes) (input : Str) : MRes :=
  goCap k input (input.takeWhile p).length

/-- Anchored backtracking matcher for a component list, with standard
JS regex semantics: literals match case-insensitively, greedy stars
backtrack longest-first, the lazy connector shortest-first, and the
whole continuation decides whether a choice point succeeds. -/
def mComps : List RComp → Str → MRes
  | [], input => some (none, input)
  | .lit s :: cs, input =>
    match stripLit s input with
    | some rest => mComps cs rest
    | none => none
  | .star p :: cs, input => starG p (mComps cs) input
  | .anyLazy :: cs, input => lazyA (mComps cs) input
  | .cap p :: cs, input => capG p (mComps cs) input

/-- Leftmost match: try the anchored matcher at each successive start
position, as `RegExp.exec` does from `lastIndex`. -/
def findFrom (pat : List RComp) : Str → MRes
  | [] => mComps pat []
  | c :: cs =>
    match mComps pat (c :: cs) with
    | some r => some r
    | none => findFrom pat cs

/-- The `while ((match = pattern.exec(html)) !== null)` loop of
`RegexStrategy.extract`: collect the capture of each successive
non-overlapping leftmost match, resuming after the end of the previous
match.  `fuel` bounds the number of matches; since every match of the
strategy's pattern consumes at least its leading `<section` literal,
`input.length + 1` fuel is always sufficient. -/
def execAll (pat : List RComp) : Nat → Str → List Str
  | 0, _ => []
  | fuel + 1, input =>
    match findFrom pat input with
    | none => []
    | some (capture, rest) => capture.getD [] :: execAll pat fuel rest

/-- Character class `[^>]`. -/
def notGt (c : Char) : Bool := c != '>'

/-- Character class `[^"]`. -/
def notQ (c : Char) : Bool := c != '"'

/-- `sectionPattern` of `RegexStrategy._buildRegexPattern`:
`<section[^>]*data-id="[^"]*92[^"]*"[^>]*>`. -/
def sectionPatt : List RComp :=
  [.lit (str "<section"), .star notGt, .lit (str "data-id=\""), .star notQ,
   .lit (str "92"), .star notQ, .lit (str "\""), .star notGt, .lit (str ">")]

/-- `articlePattern`: `[\s\S]*?<article[^>]*data-class="[^"]*45[^"]*"[^>]*>`. -/
def articlePatt : List RComp :=
  [.anyLazy, .lit (str "<article"), .star notGt, .lit (str "data-class=\""), .star notQ,
   .lit (str "45"), .star notQ, .lit (str "\""), .star notGt, .lit (str ">")]

/-- `divPattern`: `[\s\S]*?<div[^>]*data-tag="[^"]*78[^"]*"[^>]*>`. -/
def divPatt : List RComp :=
  [.anyLazy, .lit (str "<div"), .star notGt, .lit (str "data-tag=\""), .star notQ,
   .lit (str "78"), .star notQ, .lit (str "\""), .star notGt, .lit (str ">")]

/-- `bPattern`: `[\s\S]*?<b[^>]*class="ref"[^>]*value="([^"]*)"[^>]*>`. -/
def bPatt : List RComp :=
  [.anyLazy, .lit (str "<b"), .star notGt, .lit (str "class=\"ref\""), .star notGt,
   .lit (str "value=\""), .cap notQ, .lit (str "\""), .star notGt, .lit (str ">")]

/-- The full pattern built by `RegexStrategy._buildRegexPattern`:
`sectionPattern + articlePattern + divPattern + bPattern` with the
configuration constants substituted. -/
def rxPattern : List RComp :=
  sectionPatt ++ articlePatt ++ divPatt ++ bPatt

/-- `RegexStrategy.extract` (src/strategies/RegexStrategy.js): run the
global case-insensitive pattern over the raw document text and return
the captured `value` contents in match order. -/
def RegexStrategy.extract (html : Str) : List Str :=
  execAll rxPattern (html.length + 1) html

deriving instance DecidableEq for Except

/-- An extraction strategy as the orchestrator sees it: a function from
the document text to either an extraction error or a list of extracted
strings (`ExtractionStrategy.extract` in src/strategies). -/
abbrev Strategy := Str → Except Unit (List Str)

/-- Failure modes of `HtmlParser.parse`: the up-front
`Validator.validateHtml` throw, or the final "All extraction strategies
failed" error. -/
inductive ParseErr where
  | emptyHtml
  | allFailed
deriving DecidableEq

/-- The strategy loop of `HtmlParser.parse`: try each strategy in
order; a thrown error is recorded and the next strategy tried; a
non-empty result is returned immediately (the redundant
`validateCharacters` check cannot fail on a non-empty array); an empty
result falls through to the next strategy.  Returns the result together
with the number of strategies invoked. -/
def parseLoop (html : Str) : List Strategy → Except ParseErr (List Str) × Nat
  | [] => (.error .allFailed, 0)
  | s :: rest =>
    match s html with
    | .ok cs =>
      if cs.length > 0 then (.ok cs, 1)
      else
        let r := parseLoop html rest
        (r.1, r.2 + 1)
    | .error _ =>
      let r := parseLoop html rest
      (r.1, r.2 + 1)

/-- `HtmlParser.parse` (src/services/HtmlParser.js) instrumented with
the number of strategies invoked: validate the document, then run the
strategy loop. -/
def parseRun (strats : List Strategy) (html : Str) : Except ParseErr (List Str) × Nat :=
  if Validator.validateHtml html then parseLoop html strats
  else (.error .emptyHtml, 0)

/-- `HtmlParser.parse` proper: just the result. -/
def HtmlParser.parse (strats : List Strategy) (html : Str) : Except ParseErr (List Str) :=
  (parseRun strats html).1

/-- Per-attempt failure kinds inside `HttpClient.fetch`: the
`Validator.validateUrl` throw, a network/status/timeout failure from
`_makeRequest`, or the `Validator.validateHtml` throw on an empty
response body. -/
inductive FErr where
  | badUrl
  | netErr
  | emptyBody
deriving DecidableEq

/-- One iteration of the `try` block of `HttpClient.fetch`
(src/services/HttpClient.js): validate the URL, perform the request
(`net i` is the body delivered by the `i`-th network request, `none` a
network/status/timeout failure), validate the body.  The second
component counts network requests actually issued (0 when URL
validation throws before `_makeRequest`). -/
def oneTry (url : Str) (net : Nat → Option Str) (i : Nat) : Except FErr Str × Nat :=
  if isValidUrl url then
    match net i with
    | none => (.error .netErr, 1)
    | some body =>
      if Validator.validateHtml body then (.ok body, 1) else (.error .emptyBody, 1)
  else (.error .badUrl, 0)

/-- The retry recursion of `HttpClient.fetch`, structured over `left`,
the number of retries still allowed (`maxRetries - 1 - retryCount`, the
quantity the loop's guard `retryCount < maxRetries - 1` tests and each
recursive call decreases by one): on any caught error, retry while
retries remain, else throw the "Failed to fetch URL after maxRetries
attempts" wrapper around the last error.  Returns (result, attempts
made, network requests made); the error case carries the advertised
attempt total and the wrapped last failure. -/
def fetchAux (url : Str) (net : Nat → Option Str) (maxR : Nat) :
    Nat → Nat → Except (Nat × FErr) Str × Nat × Nat
  | rc, left =>
    match oneTry url net rc with
    | (.ok body, nc) => (.ok body, 1, nc)
    | (.error e, nc) =>
      match left with
      | l + 1 =>
        let r := fetchAux url net maxR (rc + 1) l
        (r.1, r.2.1 + 1, r.2.2 + nc)
      | 0 => (.error (maxR, e), 1, nc)

/-- `HttpClient.fetch(url, retryCount)` (src/services/HttpClient.js):
the retry loop entered at `retryCount = rc`, with `maxR - 1 - rc`
retries remaining — in `Nat` subtraction this is also correct for
`rc ≥ maxR - 1`, where the guard fails and no retry happens. -/
def fetchFrom (url : Str) (net : Nat → Option Str) (maxR : Nat) (rc : Nat) :
    Except (Nat × FErr) Str × Nat × Nat :=
  fetchAux url net maxR rc (maxR - 1 - rc)

/-- `HttpClient.fetch(url)` with the configured retry limit. -/
def HttpClient.fetch (url : Str) (net : Nat → Option Str) :
    Except (Nat × FErr) Str × Nat × Nat :=
  fetchFrom url net HTTP.MAX_RETRIES 0

/-- The pipeline's view of a fetch: a deterministic network maps each
URL to a response body or a failure, every retry seeing the same
outcome. -/
def pipeFetch (net : Str → Option Str) (url : Str) : Except (Nat × FErr) Str :=
  (HttpClient.fetch url (fun _ => net url)).1

/-- `UrlExtractor._buildUrl` (UrlExtractor service): join the
characters with the empty separator; the `Validator.validateUrl` call
sits in a `try` whose `catch` returns the joined string anyway, so the
join is returned whether or not it is a well-formed URL. -/
def UrlExtractor.buildUrl (chars : List Str) : Str :=
  match Validator.validateUrl chars.flatten with
  | .ok _ => chars.flatten
  | .error _ => chars.flatten

/-- `UrlExtractor._fetchFlag`: fetch the hidden URL; on success strip
all `<...>` markup and trim, on any failure degrade to `none`. -/
def UrlExtractor.fetchFlag (net : Str → Option Str) (url : Str) : Option Str :=
  match pipeFetch net url with
  | .ok resp => some (trimL (stripTags resp))
  | .error _ => none

/-- The record returned by `UrlExtractor.extract`. -/
structure RunResult where
  url : Str
  flag : Option Str
  characters : List Str
  characterCount : Nat
deriving DecidableEq

/-- Fatal failures of `UrlExtractor.extract`: the first fetch failing
after retries, or the parser failing. -/
inductive PipeErr where
  | fetchHtml (e : Nat × FErr)
  | parseFail (e : ParseErr)
deriving DecidableEq

/-- `UrlExtractor.extract` (the pipeline driver): fetch the challenge
page, extract the characters, build the URL, attempt the flag fetch
(non-fatally), and return the result record. -/
def UrlExtractor.extract (net : Str → Option Str) (strats : List Strategy)
    (challengeUrl : Str) : Except PipeErr RunResult :=
  match pipeFetch net challengeUrl with
  | .error e => .error (.fetchHtml e)
  | .ok html =>
    match HtmlParser.parse strats html with
    | .error e => .error (.parseFail e)
    | .ok chars =>
      let hiddenUrl := UrlExtractor.buildUrl chars
      let flag := UrlExtractor.fetchFlag net hiddenUrl
      .ok ⟨hiddenUrl, flag, chars, chars.length⟩

/-- Characters that may appear in attribute values of a canonical
matching structure: anything except the quote, angle-bracket and
equals characters that delimit the surrounding markup. -/
def goodChar (c : Char) : Bool :=
  !(c == '"' || c == '<' || c == '>' || c == '=')

/-- A string of canonical attribute-value characters. -/
def goodStr (s : Str) : Bool := s.all goodChar

/-- One candidate matching structure: a `section` holding an `article`
holding a `div` holding a single `b`, with the four attribute values
and the optional `value` attribute of the `b`. -/
structure CStruct where
  secId : Str
  artCls : Str
  divTag : Str
  bCls : Str
  val : Option Str

/-- The `value` part of the rendered `b` tag. -/
def renderVal : Option Str → Str
  | some v => str " value=\"" ++ v ++ str "\""
  | none => []

/-- The serialised section opening tag. -/
def secTagT (u : Str) : Str := str "<section data-id=\"" ++ u ++ str "\">"

/-- The serialised article opening tag. -/
def artTagT (u : Str) : Str := str "<article data-class=\"" ++ u ++ str "\">"

/-- The serialised div opening tag. -/
def divTagT (u : Str) : Str := str "<div data-tag=\"" ++ u ++ str "\">"

/-- The serialised b opening tag of a structure. -/
def bOpenT (st : CStruct) : Str :=
  str "<b class=\"" ++ st.bCls ++ str "\"" ++ renderVal st.val ++ str ">"

/-- The serialised b opening tag in canonical form (class `ref`, value
present). -/
def bTagT (v : Str) : Str := str "<b class=\"ref\" value=\"" ++ v ++ str "\">"

/-- The opening markup of a structure, through the `b` tag. -/
def opensOf (st : CStruct) : Str :=
  secTagT st.secId ++ (artTagT st.artCls ++ (divTagT st.divTag ++ bOpenT st))

/-- The closing markup of a structure. -/
def closers : Str := str "</b></div></article></section>"

/-- The serialised text of one structure. -/
def renderStruct (st : CStruct) : Str := opensOf st ++ closers

/-- The raw document text: the structures in document order inside an
`html`/`body` wrapper. -/
def docText (sts : List CStruct) : Str :=
  str "<html><body>" ++ (sts.map renderStruct).flatten ++ str "</body></html>"

/-- The attribute list of the `b` element of a structure. -/
def bAttrs (st : CStruct) : List (String × Str) :=
  ("class", st.bCls) ::
    (match st.val with
     | some v => [("value", v)]
     | none => [])

/-- The `b` element of a structure. -/
def bNode (st : CStruct) : Dom := .el "b" (bAttrs st) []

/-- The `div` element of a structure. -/
def divNode (st : CStruct) : Dom := .el "div" [("data-tag", st.divTag)] [bNode st]

/-- The `article` element of a structure. -/
def artNode (st : CStruct) : Dom := .el "article" [("data-class", st.artCls)] [divNode st]

/-- The parsed DOM of one structure. -/
def structTree (st : CStruct) : Dom :=
  .el "section" [("data-id", st.secId)] [artNode st]

/-- The parsed DOM of the whole document. -/
def docTree (sts : List CStruct) : Dom :=
  .el "html" [] [.el "body" [] (sts.map structTree)]

/-- A structure is a well-formed matching structure: attribute values
over the canonical alphabet, the three containment tests satisfied, the
`b` class exactly `ref`, and a `value` attribute present. -/
def canonical (st : CStruct) : Bool :=
  goodStr st.secId && hasSub (str "92") st.secId &&
  goodStr st.artCls && hasSub (str "45") st.artCls &&
  goodStr st.divTag && hasSub (str "78") st.divTag &&
  st.bCls == str "ref" &&
  (match st.val with
   | some v => goodStr v
   | none => false)

/-- The sequence v1..vN of values of the structures, in document order. -/
def valsOf (sts : List CStruct) : List Str :=
  sts.filterMap CStruct.val

/-- The three wildcard-containment tests of a structure's outer levels. -/
def structMatches (st : CStruct) : Bool :=
  hasSub PATTERN.SECTION_DATA_ID st.secId &&
  hasSub PATTERN.ARTICLE_DATA_CLASS st.artCls &&
  hasSub PATTERN.DIV_DATA_TAG st.divTag

/-- What the JSDOM strategy contributes for one structure: its value
when the outer containment tests hold and `ref` is one of the `b`'s
whitespace-separated class tokens. -/
def jsdomPick (st : CStruct) : List Str :=
  if structMatches st && memStr PATTERN.B_CLASS (splitWS st.bCls) then st.val.toList else []

/-- What the XPath strategy contributes for one structure: its value
when the outer containment tests hold and the `b`'s class attribute
equals `ref` exactly. -/
def xpathPick (st : CStruct) : List Str :=
  if structMatches st && st.bCls == PATTERN.B_CLASS then st.val.toList else []

/-- Concrete network and strategy for the pipeline witnesses: the
challenge page parses to the characters `a`, `b`; the joined string
`ab` is not a fetchable URL, so its fetch fails. -/
def netW : Str → Option Str := fun u => if u == str "https://c" then some (str "page") else none

/-- Stub strategy returning the two characters. -/
def stratW : Strategy := fun _ => .ok [str "a", str "b"]

/-- Lowercasing map, the normal form `chEq` compares. -/
def lowerL (l : Str) : Str := l.map Char.toLower

/-- A single-structure document with the given `b` class attribute and
optional value, the outer attributes canonical. -/
def oneSt (c : Str) (v : Option Str) : CStruct :=
  ⟨str "92", str "45", str "78", c, v⟩

/-- The document text of the C1 counterexample: two matching structures
whose values are `a` and `b` in document order; the first structure's
`b` tag carries its `value` attribute before its `class` attribute. -/
def ceSwapText : Str :=
  str "<html><body><section data-id=\"92\"><article data-class=\"45\"><div data-tag=\"78\"><b value=\"a\" class=\"ref\"></b></div></article></section>" ++
  str "<section data-id=\"92\"><article data-class=\"45\"><div data-tag=\"78\"><b class=\"ref\" value=\"b\"></b></div></article></section></body></html>"

/-- The parsed DOM of the same counterexample document (attribute order
inside a tag does not matter to a tree). -/
def ceSwapTree : Dom :=
  .el "html" []
    [.el "body" []
      [.el "section" [("data-id", str "92")]
        [.el "article" [("data-class", str "45")]
          [.el "div" [("data-tag", str "78")]
            [.el "b" [("value", str "a"), ("class", str "ref")] []]]],
       .el "section" [("data-id", str "92")]
        [.el "article" [("data-class", str "45")]
          [.el "div" [("data-tag", str "78")]
            [.el "b" [("class", str "ref"), ("value", str "b")] []]]]]]

set_option maxRecDepth 100000

theorem buildUrl_flatten (cs : List Str) : UrlExtractor.buildUrl cs = cs.flatten := by
  unfold UrlExtractor.buildUrl
  cases h : Validator.validateUrl cs.flatten <;> simp

theorem fetchAux_invalid (url : Str) (net : Nat → Option Str) (maxR : Nat)
    (h : isValidUrl url = false) :
    ∀ left rc, fetchAux url net maxR rc left = (.error (maxR, .badUrl), left + 1, 0) := by
  intro left
  induction left with
  | zero => intro rc; simp [fetchAux, oneTry, h]
  | succ l ih => intro rc; simp [fetchAux, oneTry, h, ih (rc + 1)]

theorem fetchAux_err (url : Str) (net : Nat → Option Str) (maxR : Nat) (e : Nat → FErr)
    (he : ∀ i, oneTry url net i = (.error (e i), 1)) :
    ∀ left rc, fetchAux url net maxR rc left = (.error (maxR, e (rc + left)), left + 1, left + 1) := by
  intro left
  induction left with
  | zero => intro rc; simp [fetchAux, he rc]
  | succ l ih =>
    intro rc
    have harith : rc + 1 + l = rc + (l + 1) := by omega
    simp [fetchAux, he rc, ih (rc + 1), harith]

theorem fetchAux_ok (url : Str) (net : Nat → Option Str) (maxR rc left : Nat) (body : Str)
    (he : oneTry url net rc = (.ok body, 1)) :
    fetchAux url net maxR rc left = (.ok body, 1, 1) := by
  cases left <;> simp [fetchAux, he]

theorem parseLoop_allFailed (html : Str) :
    ∀ strats : List Strategy,
      (parseLoop html strats).1 = .error .allFailed ↔
        ∀ s ∈ strats, s html = .error () ∨ s html = .ok [] := by
  intro strats
  induction strats with
  | nil => simp [parseLoop]
  | cons s rest ih =>
    cases hs : s html with
    | ok cs =>
      cases cs with
      | nil => simp [parseLoop, hs, ih, List.forall_mem_cons]
      | cons c cs2 => simp [parseLoop, hs, List.forall_mem_cons]
    | error e =>
      cases e
      simp [parseLoop, hs, ih, List.forall_mem_cons]

/-- C2: for every document and every ordered list of strategies, once a
strategy returns a non-empty sequence the orchestrator returns exactly
that strategy's output and its strategy-invocation count is the winning
strategy's position, so no later strategy is ever invoked and no two
strategies' outputs are ever mixed. -/
theorem parse_first_nonempty_wins (before : List Strategy) (w : Strategy)
    (post : List Strategy) (html : Str) (cs : List Str)
    (hv : Validator.validateHtml html = true)
    (hb : ∀ s ∈ before, s html = .error () ∨ s html = .ok [])
    (hw : w html = .ok cs) (hne : cs ≠ []) :
    parseRun (before ++ w :: post) html = (.ok cs, before.length + 1) := by
  rw [parseRun, if_pos hv]
  induction before with
  | nil =>
    have : cs.length > 0 := List.length_pos.mpr hne
    simp [parseLoop, hw, this]
  | cons s rest ih =>
    have hs := hb s (List.mem_cons_self s rest)
    have hrest := ih (fun t ht => hb t (List.mem_cons_of_mem s ht))
    rcases hs with h1 | h1 <;> simp [parseLoop, h1, hrest]

/-- Witness for C2 at concrete stub strategies: the first strategy
returns empty, the second returns a non-empty sequence, the third is
never invoked (the invocation count is 2) and the returned sequence is
exactly the second strategy's output. -/
theorem parse_first_nonempty_wins_witness :
    parseRun [fun _ => .ok [], fun _ => .ok [str "a"], fun _ => .ok [str "z"]] (str "x") =
      (.ok [str "a"], 2) := by
  have h := parse_first_nonempty_wins [fun _ => .ok []] (fun _ => .ok [str "a"])
    [fun _ => .ok [str "z"]] (str "x") [str "a"] (by decide)
    (by intro s hs; rw [List.mem_singleton] at hs; subst hs; exact Or.inr rfl)
    rfl (by decide)
  simpa using h

/-- C3 counterexample: on the whitespace-only document `" "` the only
strategy (the real Regex strategy) returns an empty sequence — so by
the claim parse should fail with AllStrategiesFailedError — yet parse
fails with the document-validation error instead. -/
theorem parse_allfailed_iff_cex :
    RegexStrategy.extract [' '] = [] ∧
    HtmlParser.parse [fun h => .ok (RegexStrategy.extract h)] [' '] = .error .emptyHtml ∧
    ParseErr.emptyHtml ≠ ParseErr.allFailed := by
  refine ⟨by decide, by decide, by decide⟩

/-- C3 amended: for documents that pass the up-front validation (not
empty, not whitespace-only), parse fails with AllStrategiesFailedError
exactly when every strategy errors or returns an empty sequence; and an
empty result is not an error — it makes the loop continue with the next
strategy in order. -/
theorem parse_allfailed_iff (strats : List Strategy) (html : Str) :
    (HtmlParser.parse strats html = .error .allFailed ↔
      Validator.validateHtml html = true ∧
        ∀ s ∈ strats, s html = .error () ∨ s html = .ok []) ∧
    (∀ (s : Strategy) (rest : List Strategy), Validator.validateHtml html = true →
      s html = .ok [] →
      parseRun (s :: rest) html = ((parseRun rest html).1, (parseRun rest html).2 + 1)) := by
  constructor
  · by_cases hv : Validator.validateHtml html
    · rw [HtmlParser.parse, parseRun, if_pos hv]
      rw [parseLoop_allFailed html strats]
      simp [hv]
    · simp only [HtmlParser.parse, parseRun, if_neg hv]
      constructor
      · intro h; exact absurd h (by simp)
      · intro h; exact absurd h.1 hv
  · intro s rest hv hs
    simp [parseRun, if_pos hv, parseLoop, hs]

/-- Witness for C3 amended: a document that passes validation with a
single always-empty strategy makes parse fail with
AllStrategiesFailedError. -/
theorem parse_allfailed_iff_witness :
    HtmlParser.parse [fun _ => .ok []] (str "x") = .error .allFailed :=
  (parse_allfailed_iff [fun _ => .ok []] (str "x")).1.mpr
    ⟨by decide, by intro s hs; rw [List.mem_singleton] at hs; subst hs; exact Or.inr rfl⟩

/-- C6 counterexample: on a malformed URL (the empty string) fetch does
not fail immediately — the validation throw is caught by the retry
logic like any other failure, so three validation attempts are made
(two retries) and the surfaced error is the "after 3 attempts" wrapper
around the URL-validation failure.  No network request is made (third
component 0), but the attempt count 3 refutes "performing no retry
attempts". -/
theorem fetch_invalid_url_cex :
    HttpClient.fetch (str "") (fun _ => some (str "x")) = (.error (3, .badUrl), 3, 0) ∧
    (3 : Nat) ≠ 1 := by
  refine ⟨by decide, by decide⟩

/-- C6 amended: for every input that does not parse as a well-formed
absolute URL, fetch performs no network request, but the validation
failure is retried like any other failure: maxRetries validation
attempts are made in total and fetch then fails with the retry-
exhausted wrapper carrying the URL-validation failure. -/
theorem fetch_invalid_url_retried (url : Str) (net : Nat → Option Str) (maxR : Nat)
    (h : isValidUrl url = false) (hm : 1 ≤ maxR) :
    fetchFrom url net maxR 0 = (.error (maxR, .badUrl), maxR, 0) := by
  rw [fetchFrom, fetchAux_invalid url net maxR h (maxR - 1 - 0) 0]
  have : maxR - 1 - 0 + 1 = maxR := by omega
  rw [this]

/-- Witness for C6 amended at the empty string with the configured
retry limit. -/
theorem fetch_invalid_url_retried_witness :
    fetchFrom (str "") (fun _ => some (str "x")) 3 0 = (.error (3, .badUrl), 3, 0) :=
  fetch_invalid_url_retried (str "") (fun _ => some (str "x")) 3 (by decide) (by decide)

/-- C7 counterexample: with a valid URL and a network that always
fails, fetch makes 3 total attempts — not the 1 + MAX_RETRIES = 4 the
claim's "MAX_RETRIES additional attempts after the first failure"
requires. -/
theorem fetch_retry_total_cex :
    HttpClient.fetch (str "https://a") (fun _ => none) = (.error (3, .netErr), 3, 3) ∧
    (3 : Nat) ≠ HTTP.MAX_RETRIES + 1 := by
  refine ⟨by decide, by decide⟩

/-- C7 amended: on persistent failure fetch makes exactly maxRetries
total attempts (maxRetries − 1 retries after the first failure) and
then fails with the wrapper around the last underlying failure; when
the first attempt succeeds, the body is returned after exactly one
attempt and one network request. -/
theorem fetch_retry_total (url : Str) (net : Nat → Option Str) (maxR : Nat)
    (hv : isValidUrl url = true) (hm : 1 ≤ maxR) :
    ((∀ i, net i = none) →
      fetchFrom url net maxR 0 = (.error (maxR, .netErr), maxR, maxR)) ∧
    (∀ body, net 0 = some body → Validator.validateHtml body = true →
      fetchFrom url net maxR 0 = (.ok body, 1, 1)) := by
  constructor
  · intro hn
    have he : ∀ i, oneTry url net i = (.error .netErr, 1) := by
      intro i; simp [oneTry, hv, hn i]
    rw [fetchFrom, fetchAux_err url net maxR (fun _ => .netErr) he (maxR - 1 - 0) 0]
    have : maxR - 1 - 0 + 1 = maxR := by omega
    rw [this]
  · intro body h0 hb
    have he : oneTry url net 0 = (.ok body, 1) := by simp [oneTry, hv, h0, hb]
    rw [fetchFrom, fetchAux_ok url net maxR 0 (maxR - 1 - 0) body he]

/-- Witness for C7 amended: both halves at concrete inputs — a network
that always fails gives 3 attempts then the wrapped failure, a network
that succeeds at once gives a single attempt. -/
theorem fetch_retry_total_witness :
    fetchFrom (str "https://a") (fun _ => none) 3 0 = (.error (3, .netErr), 3, 3) ∧
    fetchFrom (str "https://a") (fun _ => some (str "ok")) 3 0 = (.ok (str "ok"), 1, 1) := by
  constructor
  · exact (fetch_retry_total (str "https://a") (fun _ => none) 3 (by decide) (by decide)).1
      (fun _ => rfl)
  · exact (fetch_retry_total (str "https://a") (fun _ => some (str "ok")) 3
      (by decide) (by decide)).2 (str "ok") rfl (by decide)

/-- C9: a whitespace-only (not merely empty) string is rejected by
document validation; parse on such input fails with the validation
error, and fetch receiving such a body on every attempt fails after
exhausting its retries with the wrapper around the empty-document
validation failure. -/
theorem whitespace_rejected (s : Str) (hne : s ≠ []) (hws : ∀ c ∈ s, isWS c = true) :
    Validator.validateHtml s = false ∧
    (∀ strats : List Strategy, HtmlParser.parse strats s = .error .emptyHtml) ∧
    (∀ (url : Str) (net : Nat → Option Str) (maxR : Nat),
      isValidUrl url = true → 1 ≤ maxR → (∀ i, net i = some s) →
      fetchFrom url net maxR 0 = (.error (maxR, .emptyBody), maxR, maxR)) := by
  have hdrop : s.dropWhile isWS = [] := List.dropWhile_eq_nil_iff.mpr hws
  have hvh : Validator.validateHtml s = false := by
    simp [Validator.validateHtml, trimL, hdrop]
  refine ⟨hvh, ?_, ?_⟩
  · intro strats
    simp [HtmlParser.parse, parseRun, hvh]
  · intro url net maxR hv hm hn
    have he : ∀ i, oneTry url net i = (.error .emptyBody, 1) := by
      intro i; simp [oneTry, hv, hn i, hvh]
    rw [fetchFrom, fetchAux_err url net maxR (fun _ => .emptyBody) he (maxR - 1 - 0) 0]
    have : maxR - 1 - 0 + 1 = maxR := by omega
    rw [this]

/-- Witness for C9 at the single-space document. -/
theorem whitespace_rejected_witness :
    Validator.validateHtml [' '] = false ∧
    HtmlParser.parse [] [' '] = .error .emptyHtml ∧
    fetchFrom (str "https://a") (fun _ => some [' ']) 3 0 =
      (.error (3, .emptyBody), 3, 3) := by
  have h := whitespace_rejected [' '] (by decide) (by decide)
  exact ⟨h.1, h.2.1 [], h.2.2 (str "https://a") (fun _ => some [' ']) 3
    (by decide) (by decide) (fun _ => rfl)⟩

/-- C8: if the challenge fetch and extraction succeed, then — when the
second fetch (of the joined string) fails — the run still succeeds with
a null flag and the joined URL and character sequence intact; and when
the second fetch succeeds with body `resp`, the flag is `resp` with all
`<...>` markup removed and surrounding whitespace trimmed. -/
theorem fetchflag_degrade (net : Str → Option Str) (strats : List Strategy)
    (curl html : Str) (chars : List Str)
    (h1 : pipeFetch net curl = .ok html)
    (h2 : HtmlParser.parse strats html = .ok chars) :
    (∀ e, pipeFetch net chars.flatten = .error e →
      UrlExtractor.extract net strats curl = .ok ⟨chars.flatten, none, chars, chars.length⟩) ∧
    (∀ resp, pipeFetch net chars.flatten = .ok resp →
      UrlExtractor.extract net strats curl =
        .ok ⟨chars.flatten, some (trimL (stripTags resp)), chars, chars.length⟩) := by
  constructor
  · intro e he
    simp [UrlExtractor.extract, h1, h2, UrlExtractor.fetchFlag, buildUrl_flatten, he]
  · intro resp hr
    simp [UrlExtractor.extract, h1, h2, UrlExtractor.fetchFlag, buildUrl_flatten, hr]

/-- Witness for C8: with the concrete network the second fetch fails
and the run returns successfully with a null flag, the joined string
and both characters. -/
theorem fetchflag_degrade_witness :
    UrlExtractor.extract netW [stratW] (str "https://c") =
      .ok ⟨str "ab", none, [str "a", str "b"], 2⟩ := by
  have h := (fetchflag_degrade netW [stratW] (str "https://c") (str "page")
    [str "a", str "b"] (by decide) (by decide)).1 (3, .badUrl) (by decide)
  simpa using h

/-- C10: URL-building never fails — it returns the concatenation of the
characters with the empty separator whether or not that string is a
well-formed URL (the validation failure is swallowed), and the pipeline
then proceeds to the flag fetch with exactly the joined string. -/
theorem buildurl_total (net : Str → Option Str) (strats : List Strategy)
    (curl html : Str) (chars : List Str)
    (h1 : pipeFetch net curl = .ok html)
    (h2 : HtmlParser.parse strats html = .ok chars)
    (h3 : chars ≠ []) :
    (∀ cs : List Str, UrlExtractor.buildUrl cs = cs.flatten) ∧
    UrlExtractor.extract net strats curl =
      .ok ⟨chars.flatten, UrlExtractor.fetchFlag net chars.flatten, chars, chars.length⟩ := by
  refine ⟨buildUrl_flatten, ?_⟩
  simp [UrlExtractor.extract, h1, h2, buildUrl_flatten]

/-- Witness for C10: the joined string `ab` is not a valid URL, yet the
run succeeds and hands exactly `ab` to the flag-fetch step. -/
theorem buildurl_total_witness :
    isValidUrl (str "ab") = false ∧
    UrlExtractor.extract netW [stratW] (str "https://c") =
      .ok ⟨str "ab", UrlExtractor.fetchFlag netW (str "ab"), [str "a", str "b"], 2⟩ := by
  refine ⟨by decide, ?_⟩
  exact (buildurl_total netW [stratW] (str "https://c") (str "page")
    [str "a", str "b"] (by decide) (by decide) (by decide)).2

theorem attrLookup_bAttrs_value (st : CStruct) :
    attrLookup (bAttrs st) PATTERN.VALUE_ATTRIBUTE = st.val := by
  cases h : st.val <;> simp [bAttrs, attrLookup, PATTERN.VALUE_ATTRIBUTE, h]

theorem attrLookup_bAttrs_class (st : CStruct) :
    attrLookup (bAttrs st) "class" = some st.bCls := by
  simp [bAttrs, attrLookup]

theorem kidsPre_structTree (st : CStruct) :
    kidsPre (structTree st) = [artNode st, divNode st, bNode st] := by
  simp [structTree, artNode, divNode, bNode, kidsPre, Dom.kids, pre, preL]

theorem kidsPre_artNode (st : CStruct) :
    kidsPre (artNode st) = [divNode st, bNode st] := by
  simp [artNode, divNode, bNode, kidsPre, Dom.kids, pre, preL]

theorem kidsPre_divNode (st : CStruct) :
    kidsPre (divNode st) = [bNode st] := by
  simp [divNode, bNode, kidsPre, Dom.kids, pre, preL]

theorem jsArticles_structTree (st : CStruct) :
    jsArticles (structTree st) =
      if hasSub PATTERN.ARTICLE_DATA_CLASS st.artCls then [artNode st] else [] := by
  by_cases h : hasSub PATTERN.ARTICLE_DATA_CLASS st.artCls <;>
    simp [jsArticles, kidsPre_structTree, List.filter, attrContains, Dom.tag, Dom.getAttr,
      artNode, divNode, bNode, attrLookup, h]

theorem jsDivs_artNode (st : CStruct) :
    jsDivs (artNode st) =
      if hasSub PATTERN.DIV_DATA_TAG st.divTag then [divNode st] else [] := by
  by_cases h : hasSub PATTERN.DIV_DATA_TAG st.divTag <;>
    simp [jsDivs, kidsPre_artNode, List.filter, attrContains, Dom.tag, Dom.getAttr,
      divNode, bNode, attrLookup, h]

theorem jsBs_divNode (st : CStruct) :
    jsBs (divNode st) =
      if memStr PATTERN.B_CLASS (splitWS st.bCls) && st.val.isSome then [bNode st] else [] := by
  by_cases h1 : memStr PATTERN.B_CLASS (splitWS st.bCls) <;>
  by_cases h2 : st.val.isSome <;>
    simp [jsBs, kidsPre_divNode, List.filter, jsdomBSel, hasClassTok, Dom.tag, Dom.getAttr,
      bNode, attrLookup_bAttrs_class, attrLookup_bAttrs_value, h1, h2]

theorem jsFromSection_structTree (st : CStruct) :
    jsFromSection (structTree st) =
      if hasSub PATTERN.ARTICLE_DATA_CLASS st.artCls && hasSub PATTERN.DIV_DATA_TAG st.divTag &&
          memStr PATTERN.B_CLASS (splitWS st.bCls) then
        st.val.toList
      else [] := by
  by_cases h1 : hasSub PATTERN.ARTICLE_DATA_CLASS st.artCls <;>
  by_cases h2 : hasSub PATTERN.DIV_DATA_TAG st.divTag <;>
  by_cases h3 : memStr PATTERN.B_CLASS (splitWS st.bCls) <;>
    simp [jsFromSection, jsArticles_structTree, jsDivs_artNode, jsBs_divNode, h1, h2, h3,
      bNode, Dom.getAttr, attrLookup_bAttrs_value]
  cases hv : st.val <;>
    simp [List.filterMap_cons, attrLookup_bAttrs_value, hv]

theorem pre_el (t : String) (a : List (String × Str)) (ks : List Dom) :
    pre (.el t a ks) = .el t a ks :: preL ks := by rw [pre]

theorem preL_nil : preL [] = [] := by rw [preL]

theorem preL_cons (n : Dom) (ns : List Dom) : preL (n :: ns) = pre n ++ preL ns := by rw [preL]

theorem filter_sec_structTree (st : CStruct) :
    (pre (structTree st)).filter
        (fun n => attrContains n "section" "data-id" PATTERN.SECTION_DATA_ID) =
      if hasSub PATTERN.SECTION_DATA_ID st.secId then [structTree st] else [] := by
  by_cases h : hasSub PATTERN.SECTION_DATA_ID st.secId <;>
    simp [pre, preL, structTree, artNode, divNode, bNode, List.filter, attrContains,
      Dom.tag, Dom.getAttr, attrLookup, h]

theorem jsSections_filter (sts : List CStruct) :
    (preL (sts.map structTree)).filter
        (fun n => attrContains n "section" "data-id" PATTERN.SECTION_DATA_ID) =
      (sts.filter (fun st => hasSub PATTERN.SECTION_DATA_ID st.secId)).map structTree := by
  induction sts with
  | nil => rw [List.map_nil, preL_nil, List.filter_nil, List.filter_nil, List.map_nil]
  | cons st rest ih =>
    rw [List.map_cons, preL_cons, List.filter_append, filter_sec_structTree, ih,
      List.filter_cons]
    by_cases h : hasSub PATTERN.SECTION_DATA_ID st.secId <;> simp [h]

theorem jsSections_doc (sts : List CStruct) :
    jsSections (docTree sts) =
      (sts.filter (fun st => hasSub PATTERN.SECTION_DATA_ID st.secId)).map structTree := by
  have h1 : attrContains (Dom.el "html" [] [Dom.el "body" [] (sts.map structTree)])
      "section" "data-id" PATTERN.SECTION_DATA_ID = false := by
    simp [attrContains, Dom.tag]
  have h2 : attrContains (Dom.el "body" [] (sts.map structTree))
      "section" "data-id" PATTERN.SECTION_DATA_ID = false := by
    simp [attrContains, Dom.tag]
  rw [jsSections, docTree, pre_el, preL_cons, pre_el, preL_nil, List.append_nil,
    List.filter_cons, List.filter_cons]
  simp only [h1, h2, if_neg, Bool.false_eq_true, not_false_eq_true, if_false]
  exact jsSections_filter sts

theorem jsdom_doc (sts : List CStruct) :
    JSDOMStrategy.extract (docTree sts) = (sts.map jsdomPick).flatten := by
  rw [JSDOMStrategy.extract, jsSections_doc]
  induction sts with
  | nil => rfl
  | cons st rest ih =>
    rw [List.filter_cons, List.map_cons, List.flatten_cons]
    by_cases h : hasSub PATTERN.SECTION_DATA_ID st.secId
    · rw [if_pos h, List.map_cons, List.flatMap_cons, ih, jsFromSection_structTree]
      congr 1
      rw [jsdomPick, structMatches]
      by_cases h2 : hasSub PATTERN.ARTICLE_DATA_CLASS st.artCls <;>
      by_cases h3 : hasSub PATTERN.DIV_DATA_TAG st.divTag <;>
      by_cases h4 : memStr PATTERN.B_CLASS (splitWS st.bCls) <;> simp [h, h2, h3, h4]
    · rw [if_neg h, ih]
      have : jsdomPick st = [] := by simp [jsdomPick, structMatches, h]
      rw [this, List.nil_append]

theorem xgoL_nil (s a d : Bool) : xgoL s a d [] = [] := by rw [xgoL]

theorem xgoL_cons (s a d : Bool) (n : Dom) (ns : List Dom) :
    xgoL s a d (n :: ns) = xgo s a d n ++ xgoL s a d ns := by rw [xgoL]

theorem xgo_structTree (st : CStruct) :
    xgo false false false (structTree st) = xpathPick st := by
  cases hv : st.val <;>
  by_cases h1 : hasSub PATTERN.SECTION_DATA_ID st.secId <;>
  by_cases h2 : hasSub PATTERN.ARTICLE_DATA_CLASS st.artCls <;>
  by_cases h3 : hasSub PATTERN.DIV_DATA_TAG st.divTag <;>
  by_cases h4 : st.bCls == PATTERN.B_CLASS <;>
    simp [xgo, xgoL, structTree, artNode, divNode, bNode, bAttrs, attrContains, attrEquals,
      Dom.tag, Dom.getAttr, attrLookup, PATTERN.VALUE_ATTRIBUTE,
      xpathPick, structMatches, h1, h2, h3, h4, hv]

theorem xgoL_structs (sts : List CStruct) :
    xgoL false false false (sts.map structTree) = (sts.map xpathPick).flatten := by
  induction sts with
  | nil => rw [List.map_nil, xgoL_nil, List.map_nil, List.flatten_nil]
  | cons st rest ih =>
    rw [List.map_cons, xgoL_cons, xgo_structTree, ih, List.map_cons, List.flatten_cons]

theorem xpath_doc (sts : List CStruct) :
    XPathStrategy.extract (docTree sts) = (sts.map xpathPick).flatten := by
  have hh : ∀ ks : List Dom, xgo false false false (Dom.el "html" [] ks) =
      xgoL false false false ks := by
    intro ks
    simp [xgo, attrEquals, attrContains, Dom.tag, Dom.getAttr, attrLookup]
  have hb : ∀ ks : List Dom, xgo false false false (Dom.el "body" [] ks) =
      xgoL false false false ks := by
    intro ks
    simp [xgo, attrEquals, attrContains, Dom.tag, Dom.getAttr, attrLookup]
  rw [XPathStrategy.extract, docTree, hh, xgoL_cons, hb, xgoL_nil, List.append_nil,
    xgoL_structs]

theorem charOfNat_toNat (n : Nat) (h : n < 55296) : (Char.ofNat n).toNat = n := by
  have hv : n.isValidChar := Or.inl h
  simp [Char.ofNat, hv, Char.ofNatAux, Char.toNat, UInt32.toNat, BitVec.toNat_ofNatLt]

theorem toLower_eq_low {c x : Char} (hx : x.toNat < 65) (h : c.toLower = x) : c = x := by
  unfold Char.toLower at h
  simp only at h
  by_cases hr : c.toNat ≥ 65 ∧ c.toNat ≤ 90
  · rw [if_pos hr] at h
    exfalso
    have ht : (Char.ofNat (c.toNat + 32)).toNat = c.toNat + 32 := charOfNat_toNat _ (by omega)
    rw [h] at ht
    omega
  · rw [if_neg hr] at h
    exact h

theorem chEq_low_iff {x : Char} (hx : x.toNat < 65) (c : Char) : chEq x c = true ↔ c = x := by
  have hxl : x.toLower = x := by
    unfold Char.toLower
    simp only
    rw [if_neg (by omega)]
  constructor
  · intro h
    simp [chEq, hxl] at h
    exact toLower_eq_low hx h.symm
  · intro h
    subst h
    simp [chEq]

theorem goodChar_ne {c : Char} (h : goodChar c = true) :
    c ≠ '"' ∧ c ≠ '<' ∧ c ≠ '>' ∧ c ≠ '=' := by
  simp [goodChar] at h
  obtain ⟨⟨⟨h1, h2⟩, h3⟩, h4⟩ := h
  exact ⟨h1, h2, h3, h4⟩

theorem goodChar_chEq_quote {c : Char} (h : goodChar c = true) : chEq '"' c = false := by
  by_contra hc
  simp only [Bool.not_eq_false] at hc
  have := (chEq_low_iff (by decide) c).mp hc
  exact (goodChar_ne h).1 this

theorem goodStr_drop {u : Str} (h : goodStr u = true) (n : Nat) :
    goodStr (u.drop n) = true := by
  simp only [goodStr, List.all_eq_true] at h ⊢
  intro c hc
  exact h c (List.mem_of_mem_drop hc)

theorem goodStr_cons {c : Char} {u : Str} (h : goodStr (c :: u) = true) :
    goodChar c = true ∧ goodStr u = true := by
  simp only [goodStr, List.all_cons, Bool.and_eq_true] at h
  exact h

/-- Soundness of literal stripping: a successful strip splits the input
into a case-insensitive copy of the literal followed by the rest. -/
theorem stripLit_some_split {L input rest : Str} (h : stripLit L input = some rest) :
    ∃ p, input = p ++ rest ∧ lowerL p = lowerL L := by
  induction L generalizing input with
  | nil =>
    simp [stripLit] at h
    exact ⟨[], by simp [h, lowerL]⟩
  | cons l ls ih =>
    cases input with
    | nil => simp [stripLit] at h
    | cons c cs =>
      by_cases hc : chEq l c
      · simp only [stripLit, hc, if_pos] at h
        obtain ⟨p, hp1, hp2⟩ := ih h
        refine ⟨c :: p, by simp [hp1], ?_⟩
        simp only [lowerL, List.map_cons] at hp2 ⊢
        simp [chEq] at hc
        rw [hp2, hc]
      · simp [stripLit, hc] at h

/-- The quote-splitting law for literals that contain a quote: on input
`u ++ '"' :: w` with `u` quote-free (canonical attribute characters),
stripping `L₁ ++ '"' :: L₂` succeeds exactly when `u` is a
case-insensitive copy of `L₁` and `L₂` then strips from `w`. -/
theorem stripLit_split_quote {L1 L2 u w : Str} (hL1 : ∀ c ∈ L1, c ≠ '"')
    (hu : goodStr u = true) :
    stripLit (L1 ++ '"' :: L2) (u ++ '"' :: w) =
      if lowerL u = lowerL L1 then stripLit L2 w else none := by
  induction L1 generalizing u with
  | nil =>
    cases u with
    | nil => simp [stripLit, chEq, lowerL]
    | cons c u2 =>
      have hg := (goodStr_cons hu).1
      simp [stripLit, goodChar_chEq_quote hg, lowerL]
  | cons l L1t ih =>
    cases u with
    | nil =>
      have hl : l ≠ '"' := hL1 l (List.mem_cons_self l L1t)
      have : chEq l '"' = false := by
        by_contra hc
        simp only [Bool.not_eq_false, chEq, beq_iff_eq] at hc
        have hq : ('"' : Char).toLower = '"' := by decide
        rw [hq] at hc
        exact hl (toLower_eq_low (by decide) hc)
      simp [stripLit, this, lowerL]
    | cons c u2 =>
      have hgu := (goodStr_cons hu).2
      by_cases hc : chEq l c
      · have hcc : c.toLower = l.toLower := by
          simp only [chEq, beq_iff_eq] at hc
          exact hc.symm
        have hstep : stripLit ((l :: L1t) ++ '"' :: L2) ((c :: u2) ++ '"' :: w) =
            stripLit (L1t ++ '"' :: L2) (u2 ++ '"' :: w) := by
          simp [stripLit, hc]
        have hiff : (lowerL (c :: u2) = lowerL (l :: L1t)) ↔ (lowerL u2 = lowerL L1t) := by
          simp [lowerL, hcc]
        rw [hstep, ih (fun x hx => hL1 x (List.mem_cons_of_mem l hx)) hgu]
        by_cases ht : lowerL u2 = lowerL L1t
        · rw [if_pos ht, if_pos (hiff.mpr ht)]
        · rw [if_neg ht, if_neg (fun hh => ht (hiff.mp hh))]
      · have hstep : stripLit ((l :: L1t) ++ '"' :: L2) ((c :: u2) ++ '"' :: w) = none := by
          simp [stripLit, hc]
        have hne : lowerL (c :: u2) ≠ lowerL (l :: L1t) := by
          intro hh
          simp only [lowerL, List.map_cons, List.cons.injEq] at hh
          simp [chEq, hh.1] at hc
        rw [hstep, if_neg hne]

theorem lowerL_ne_of_eq_mem {u L : Str} (hu : goodStr u = true) (hL : '=' ∈ L) :
    lowerL u ≠ lowerL L := by
  intro h
  have : '=' ∈ lowerL L := by
    simp only [lowerL, List.mem_map]
    exact ⟨'=', hL, by decide⟩
  rw [← h] at this
  simp only [lowerL, List.mem_map] at this
  obtain ⟨c, hc, hlc⟩ := this
  have hce : c = '=' := toLower_eq_low (by decide) hlc
  rw [hce] at hc
  simp only [goodStr, List.all_eq_true] at hu
  exact (goodChar_ne (hu '=' hc)).2.2.2 rfl

theorem takeWhile_all_append (p : Char → Bool) (u w : Str) (h : ∀ c ∈ u, p c = true) :
    (u ++ w).takeWhile p = u ++ w.takeWhile p := by
  induction u with
  | nil => simp
  | cons a cs ih =>
    have hc := h a (List.mem_cons_self a cs)
    have ht := ih (fun x hx => h x (List.mem_cons_of_mem a hx))
    simp [List.takeWhile_cons, hc, ht]

theorem goodStr_takeWhile_notQ {u : Str} (hu : goodStr u = true) :
    u.takeWhile notQ = u := by
  induction u with
  | nil => simp
  | cons a cs ih =>
    obtain ⟨ha, hcs⟩ := goodStr_cons hu
    have : notQ a = true := by simp [notQ, (goodChar_ne ha).1]
    simp [List.takeWhile_cons, this, ih hcs]

theorem goStar_none_range (k : Str → MRes) (input : Str) :
    ∀ n, (∀ j, j ≤ n → k (input.drop j) = none) → goStar k input n = none := by
  intro n
  induction n with
  | zero =>
    intro h
    have := h 0 (Nat.le_refl 0)
    simpa [goStar] using this
  | succ m ih =>
    intro h
    have h1 := h (m + 1) (Nat.le_refl _)
    simp only [goStar, h1]
    exact ih (fun j hj => h j (Nat.le_succ_of_le hj))

theorem goStar_eq_range (k : Str → MRes) (input : Str) (v : MRes) :
    ∀ n, (∀ j, j ≤ n → k (input.drop j) = none ∨ k (input.drop j) = v) →
      (∃ j, j ≤ n ∧ k (input.drop j) = v) → goStar k input n = v := by
  intro n
  cases hv : v with
  | none =>
    intro hall hex
    apply goStar_none_range
    intro j hj
    rcases hall j hj with h | h
    · exact h
    · exact h
  | some r =>
    induction n with
    | zero =>
      intro hall hex
      obtain ⟨j, hj, hkj⟩ := hex
      have hj0 : j = 0 := Nat.le_zero.mp hj
      subst hj0
      simpa [goStar] using hkj
    | succ m ih =>
      intro hall hex
      cases hk : k (input.drop (m + 1)) with
      | some r2 =>
        rcases hall (m + 1) (Nat.le_refl _) with h | h
        · rw [hk] at h; cases h
        · rw [hk] at h
          simp only [goStar, hk]
          exact h
      | none =>
        simp only [goStar, hk]
        apply ih (fun j hj => hall j (Nat.le_succ_of_le hj))
        obtain ⟨j, hj, hkj⟩ := hex
        rcases Nat.lt_or_ge j (m + 1) with hlt | hge
        · exact ⟨j, Nat.lt_succ_iff.mp hlt, hkj⟩
        · have : j = m + 1 := Nat.le_antisymm hj hge
          subst this
          rw [hk] at hkj
          cases hkj

theorem goCap_unique (k : Str → MRes) (input : Str) (j0 : Nat) (c0 : Option Str) (rest : Str) :
    ∀ n, j0 ≤ n → (∀ j, j ≤ n → j ≠ j0 → k (input.drop j) = none) →
      k (input.drop j0) = some (c0, rest) →
      goCap k input n = some (some (input.take j0), rest) := by
  intro n
  induction n with
  | zero =>
    intro hj0 hall hk
    have : j0 = 0 := Nat.le_zero.mp hj0
    subst this
    simp only [List.drop_zero] at hk
    simp [goCap, hk]
  | succ m ih =>
    intro hj0 hall hk
    by_cases hje : j0 = m + 1
    · subst hje
      simp only [goCap, hk]
    · have hj0m : j0 ≤ m := by omega
      have hnone : k (input.drop (m + 1)) = none := hall (m + 1) (Nat.le_refl _) (fun h => hje h.symm)
      simp only [goCap, hnone]
      exact ih hj0m (fun j hj hne => hall j (Nat.le_succ_of_le hj) hne) hk

theorem lazyA_here {k : Str → MRes} {input : Str} {r : Option Str × Str}
    (h : k input = some r) : lazyA k input = some r := by
  cases input with
  | nil => simpa [lazyA] using h
  | cons c cs => simp [lazyA, h]

theorem findFrom_here {pat : List RComp} {input : Str} {r : Option Str × Str}
    (h : mComps pat input = some r) : findFrom pat input = some r := by
  cases input with
  | nil => simpa [findFrom] using h
  | cons c cs => simp [findFrom, h]

theorem findFrom_cons_of_none {pat : List RComp} {c : Char} {cs : Str}
    (h : mComps pat (c :: cs) = none) : findFrom pat (c :: cs) = findFrom pat cs := by
  simp [findFrom, h]

theorem execAll_skip {pat : List RComp} {t x : Str} {fuel : Nat}
    (hskip : findFrom pat (t ++ x) = findFrom pat x) :
    execAll pat (fuel + 1) (t ++ x) = execAll pat (fuel + 1) x := by
  simp only [execAll, hskip]

theorem hasSub_exists {n h : Str} (hh : hasSub n h = true) : ∃ x y, h = x ++ n ++ y := by
  induction h with
  | nil =>
    simp [hasSub] at hh
    cases n with
    | nil => exact ⟨[], [], rfl⟩
    | cons a as => simp [leadEq] at hh
  | cons c cs ih =>
    simp only [hasSub, Bool.or_eq_true] at hh
    rcases hh with h1 | h1
    · -- leadEq n (c :: cs): n is a leading segment
      have : ∀ (n input : Str), leadEq n input = true → ∃ y, input = n ++ y := by
        intro n
        induction n with
        | nil => intro input _; exact ⟨input, rfl⟩
        | cons a as ihn =>
          intro input hle
          cases input with
          | nil => simp [leadEq] at hle
          | cons b bs =>
            simp only [leadEq, Bool.and_eq_true, beq_iff_eq] at hle
            obtain ⟨y, hy⟩ := ihn bs hle.2
            exact ⟨y, by rw [hle.1, hy]; simp⟩
    
      obtain ⟨y, hy⟩ := this n (c :: cs) h1
      exact ⟨[], y, by simp [hy]⟩
    · obtain ⟨x, y, hxy⟩ := ih h1
      exact ⟨c :: x, y, by simp [hxy]⟩

theorem mComps_nil_eq (input : Str) : mComps [] input = some (none, input) := rfl

theorem mComps_lit_eq (s : Str) (cs : List RComp) (input : Str) :
    mComps (.lit s :: cs) input =
      match stripLit s input with
      | some rest => mComps cs rest
      | none => none := rfl

theorem mComps_star_eq (p : Char → Bool) (cs : List RComp) (input : Str) :
    mComps (.star p :: cs) input = starG p (mComps cs) input := rfl

theorem mComps_lazy_eq (cs : List RComp) (input : Str) :
    mComps (.anyLazy :: cs) input = lazyA (mComps cs) input := rfl

theorem mComps_cap_eq (p : Char → Bool) (cs : List RComp) (input : Str) :
    mComps (.cap p :: cs) input = capG p (mComps cs) input := rfl

theorem mComps_lit_none {s : Str} {cs : List RComp} {input : Str}
    (h : stripLit s input = none) : mComps (.lit s :: cs) input = none := by
  rw [mComps_lit_eq, h]

theorem good_drop_cons {u : Str} (hu : goodStr u = true) {j : Nat} (hj : j < u.length) :
    ∃ c t, u.drop j = c :: t ∧ goodChar c = true ∧ goodStr t = true := by
  obtain ⟨c, t, hct⟩ : ∃ c t, u.drop j = c :: t := ⟨_, _, List.drop_eq_getElem_cons hj⟩
  have hg : goodStr (u.drop j) = true := goodStr_drop hu j
  rw [hct] at hg
  obtain ⟨h1, h2⟩ := goodStr_cons hg
  exact ⟨c, t, hct, h1, h2⟩

/-- Processing `[^"]*"[^>]*>` against a canonical attribute remainder
`u ++ "\">" ++ r`: the star can only stop at the closing quote, the
second star is empty, and the match continues with the tail at `r` —
whatever the tail then does. -/
theorem mComps_quoteTail (tail : List RComp) (u r : Str) (hu : goodStr u = true) :
    mComps (.star notQ :: .lit (str "\"") :: .star notGt :: .lit (str ">") :: tail)
      (u ++ '"' :: '>' :: r) = mComps tail r := by
  rw [mComps_star_eq, starG]
  have hregion : ((u ++ '"' :: '>' :: r).takeWhile notQ) = u := by
    rw [takeWhile_all_append notQ u _ (fun c hc => by
      simp only [goodStr, List.all_eq_true] at hu
      simp [notQ, (goodChar_ne (hu c hc)).1])]
    simp [List.takeWhile_cons, notQ]
  rw [hregion]
  have hcanon : mComps (.lit (str "\"") :: .star notGt :: .lit (str ">") :: tail)
      ((u ++ '"' :: '>' :: r).drop u.length) = mComps tail r := by
    rw [List.drop_left]
    rw [mComps_lit_eq]
    have h1 : stripLit (str "\"") ('"' :: '>' :: r) = some ('>' :: r) := rfl
    simp only [h1]
    rw [mComps_star_eq, starG]
    have h2 : (('>' :: r).takeWhile notGt) = [] := by simp [List.takeWhile_cons, notGt]
    rw [h2]
    simp only [List.length_nil, goStar]
    rw [mComps_lit_eq]
    have h3 : stripLit (str ">") ('>' :: r) = some r := rfl
    simp only [h3]
  apply goStar_eq_range
  · intro j hj
    rcases Nat.lt_or_ge j u.length with hlt | hge
    · left
      rw [List.drop_append_of_le_length (Nat.le_of_lt hlt)]
      obtain ⟨c, t, hct, hgc, _⟩ := good_drop_cons hu hlt
      rw [hct]
      apply mComps_lit_none
      have : chEq '"' c = false := goodChar_chEq_quote hgc
      simp [str, stripLit, this]
    · have : j = u.length := Nat.le_antisymm hj hge
      subst this
      right
      exact hcanon
  · exact ⟨u.length, Nat.le_refl _, hcanon⟩

theorem toLower_fix {x : Char} (hx : x.toNat < 65) : x.toLower = x := by
  unfold Char.toLower
  simp only
  rw [if_neg (by omega)]

theorem stripLit_refl (l z : Str) : stripLit l (l ++ z) = some z := by
  induction l with
  | nil => rfl
  | cons c cs ih => simp [stripLit, chEq, ih]

theorem goodStr_split {a b : Str} (h : goodStr (a ++ b) = true) :
    goodStr a = true ∧ goodStr b = true := by
  simp only [goodStr, List.all_append, Bool.and_eq_true] at h
  exact h

/-- Processing `[^"]*dd[^"]*"[^>]*>` (with `dd` a two-digit literal)
against a canonical attribute value containing `dd`, followed by
`"\">" ++ r`: every alignment of the digit literal inside the value
leads to the same continuation at `r`, and at least one alignment
exists, so the match continues with the tail at `r`. -/
theorem mComps_digitTail (d1 d2 : Char) (hd1 : d1.toNat < 65) (hd2 : d2.toNat < 65)
    (hq1 : d1 ≠ '"') (hq2 : d2 ≠ '"') (tail : List RComp) (u r : Str)
    (hu : goodStr u = true) (hsub : hasSub [d1, d2] u = true) :
    mComps (.star notQ :: .lit [d1, d2] :: .star notQ :: .lit (str "\"") ::
        .star notGt :: .lit (str ">") :: tail)
      (u ++ '"' :: '>' :: r) = mComps tail r := by
  rw [mComps_star_eq, starG]
  have hregion : ((u ++ '"' :: '>' :: r).takeWhile notQ) = u := by
    rw [takeWhile_all_append notQ u _ (fun c hc => by
      simp only [goodStr, List.all_eq_true] at hu
      simp [notQ, (goodChar_ne (hu c hc)).1])]
    simp [List.takeWhile_cons, notQ]
  rw [hregion]
  apply goStar_eq_range
  · intro j hj
    rw [List.drop_append_of_le_length hj]
    cases hs : stripLit [d1, d2] (u.drop j ++ '"' :: '>' :: r) with
    | none => exact Or.inl (mComps_lit_none hs)
    | some rest =>
      right
      rw [mComps_lit_eq]
      simp only [hs]
      obtain ⟨p, hp1, hp2⟩ := stripLit_some_split hs
      have hplow : lowerL p = [d1, d2] := by
        rw [hp2]
        simp [lowerL, toLower_fix hd1, toLower_fix hd2]
      have hpeq : p = [d1, d2] := by
        cases p with
        | nil => simp [lowerL] at hplow
        | cons c1 pt =>
          cases pt with
          | nil => simp [lowerL] at hplow
          | cons c2 pt2 =>
            cases pt2 with
            | nil =>
              simp only [lowerL, List.map_cons, List.map_nil, List.cons.injEq, and_true] at hplow
              rw [toLower_eq_low hd1 hplow.1, toLower_eq_low hd2 hplow.2]
            | cons c3 pt3 => simp [lowerL] at hplow
      subst hpeq
      -- u.drop j ++ '"' :: '>' :: r = d1 :: d2 :: rest
      cases hdj : u.drop j with
      | nil =>
        rw [hdj] at hp1
        simp only [List.nil_append, List.cons_append, List.cons.injEq] at hp1
        exact absurd hp1.1.symm hq1
      | cons c1 t1 =>
        cases t1 with
        | nil =>
          rw [hdj] at hp1
          simp only [List.cons_append, List.nil_append, List.cons.injEq] at hp1
          exact absurd hp1.2.1.symm hq2
        | cons c2 t2 =>
          rw [hdj] at hp1
          simp only [List.cons_append, List.cons.injEq] at hp1
          have ht2 : rest = t2 ++ '"' :: '>' :: r := by
            simpa using hp1.2.2.symm
          have hgt2 : goodStr t2 = true := by
            have := goodStr_drop hu j
            rw [hdj] at this
            exact (goodStr_cons (goodStr_cons this).2).2
          rw [ht2]
          exact mComps_quoteTail tail t2 r hgt2
  · obtain ⟨x, y, hxy⟩ := hasSub_exists hsub
    refine ⟨x.length, ?_, ?_⟩
    · rw [hxy]
      simp [List.length_append]
    · have hdrop : (u ++ '"' :: '>' :: r).drop x.length = [d1, d2] ++ (y ++ '"' :: '>' :: r) := by
        rw [hxy, List.append_assoc, List.append_assoc, List.drop_left]
      rw [hdrop, mComps_lit_eq]
      simp only [stripLit_refl [d1, d2] (y ++ '"' :: '>' :: r)]
      have hgy : goodStr y = true := by
        rw [hxy] at hu
        exact (goodStr_split hu).2
      exact mComps_quoteTail tail y r hgy

/-- Processing `sectionPattern` against a canonical section tag whose
`data-id` contains `92`: the match consumes exactly the tag and the
rest of the pattern continues right after it. -/
theorem mComps_secTag (tail : List RComp) (u r : Str)
    (hu : goodStr u = true) (hsub : hasSub (str "92") u = true) :
    mComps (sectionPatt ++ tail) (secTagT u ++ r) = mComps tail r := by
  have hpatt : sectionPatt ++ tail =
      .lit (str "<section") :: .star notGt :: .lit (str "data-id=\"") :: .star notQ ::
        .lit (str "92") :: .star notQ :: .lit (str "\"") :: .star notGt ::
        .lit (str ">") :: tail := rfl
  have hinput : secTagT u ++ r =
      str "<section" ++ (str " data-id=\"" ++ (u ++ '"' :: '>' :: r)) := by
    rw [secTagT, show str "<section data-id=\"" = str "<section" ++ str " data-id=\"" from rfl,
      show ('"' : Char) :: '>' :: r = str "\">" ++ r from rfl]
    simp [List.append_assoc]
  rw [hpatt, hinput, mComps_lit_eq]
  simp only [stripLit_refl]
  rw [mComps_star_eq, starG]
  have hA : ∀ c ∈ str " data-id=\"", notGt c = true := by decide
  have hgood : ∀ c ∈ u, notGt c = true := fun c hc => by
    simp only [goodStr, List.all_eq_true] at hu
    simp [notGt, (goodChar_ne (hu c hc)).2.2.1]
  have hregion : (str " data-id=\"" ++ (u ++ '"' :: '>' :: r)).takeWhile notGt =
      str " data-id=\"" ++ u ++ ['"'] := by
    rw [takeWhile_all_append notGt _ _ hA, takeWhile_all_append notGt u _ hgood]
    simp [List.takeWhile_cons, notGt]
  rw [hregion]
  have hlen : (str " data-id=\"" ++ u ++ ['"']).length = u.length + 11 := by
    simp [str, List.length_append]
  rw [hlen]
  have hcanon : mComps (.lit (str "data-id=\"") :: .star notQ :: .lit (str "92") :: .star notQ ::
      .lit (str "\"") :: .star notGt :: .lit (str ">") :: tail)
      ((str " data-id=\"" ++ (u ++ '"' :: '>' :: r)).drop 1) = mComps tail r := by
    rw [show (str " data-id=\"" ++ (u ++ '"' :: '>' :: r)).drop 1 =
      str "data-id=\"" ++ (u ++ '"' :: '>' :: r) from rfl]
    rw [mComps_lit_eq]
    simp only [stripLit_refl]
    exact mComps_digitTail '9' '2' (by decide) (by decide) (by decide) (by decide) tail u r hu hsub
  apply goStar_eq_range
  · intro j hj
    rcases Nat.lt_or_ge j 10 with h10 | h10
    · interval_cases j
      · exact Or.inl (mComps_lit_none rfl)
      · exact Or.inr hcanon
      · exact Or.inl (mComps_lit_none rfl)
      · exact Or.inl (mComps_lit_none rfl)
      · exact Or.inl (mComps_lit_none rfl)
      · exact Or.inl (mComps_lit_none rfl)
      · exact Or.inl (mComps_lit_none rfl)
      · exact Or.inl (mComps_lit_none rfl)
      · exact Or.inl (mComps_lit_none rfl)
      · exact Or.inl (mComps_lit_none rfl)
    · left
      obtain ⟨i, hi⟩ : ∃ i, j = 10 + i := ⟨j - 10, by omega⟩
      subst hi
      have hdropA : (str " data-id=\"" ++ (u ++ '"' :: '>' :: r)).drop (10 + i) =
          (u ++ '"' :: '>' :: r).drop i := by
        rw [show (10 : Nat) + i = (str " data-id=\"").length + i by simp [str]]
        exact List.drop_append i
      rw [hdropA]
      rcases Nat.lt_or_ge i (u.length + 1) with hiu | hiu
      · rcases Nat.lt_or_ge i u.length with hiu2 | hiu2
        · rw [List.drop_append_of_le_length (Nat.le_of_lt hiu2)]
          apply mComps_lit_none
          rw [show str "data-id=\"" = str "data-id=" ++ '"' :: [] from rfl]
          rw [stripLit_split_quote (by decide) (goodStr_drop hu i)]
          rw [if_neg (lowerL_ne_of_eq_mem (goodStr_drop hu i) (by decide))]
        · have : i = u.length := by omega
          subst this
          rw [List.drop_left]
          exact mComps_lit_none rfl
      · have : i = u.length + 1 := by omega
        subst this
        have hd : (u ++ '"' :: '>' :: r).drop (u.length + 1) = '>' :: r := by
          rw [List.drop_append 1]
          rfl
        rw [hd]
        exact mComps_lit_none rfl
  · exact ⟨1, by omega, hcanon⟩

/-- Processing `articlePattern` core (after its lazy connector) against a canonical section tag whose
`data-id` contains `92`: the match consumes exactly the tag and the
rest of the pattern continues right after it. -/
theorem mComps_articleTag (tail : List RComp) (u r : Str)
    (hu : goodStr u = true) (hsub : hasSub (str "45") u = true) :
    mComps (.lit (str "<article") :: .star notGt :: .lit (str "data-class=\"") :: .star notQ ::
        .lit (str "45") :: .star notQ :: .lit (str "\"") :: .star notGt ::
        .lit (str ">") :: tail) (artTagT u ++ r) = mComps tail r := by
  have hinput : artTagT u ++ r =
      str "<article" ++ (str " data-class=\"" ++ (u ++ '"' :: '>' :: r)) := by
    rw [artTagT, show str "<article data-class=\"" = str "<article" ++ str " data-class=\"" from rfl,
      show ('"' : Char) :: '>' :: r = str "\">" ++ r from rfl]
    simp [List.append_assoc]
  rw [hinput, mComps_lit_eq]
  simp only [stripLit_refl]
  rw [mComps_star_eq, starG]
  have hA : ∀ c ∈ str " data-class=\"", notGt c = true := by decide
  have hgood : ∀ c ∈ u, notGt c = true := fun c hc => by
    simp only [goodStr, List.all_eq_true] at hu
    simp [notGt, (goodChar_ne (hu c hc)).2.2.1]
  have hregion : (str " data-class=\"" ++ (u ++ '"' :: '>' :: r)).takeWhile notGt =
      str " data-class=\"" ++ u ++ ['"'] := by
    rw [takeWhile_all_append notGt _ _ hA, takeWhile_all_append notGt u _ hgood]
    simp [List.takeWhile_cons, notGt]
  rw [hregion]
  have hlen : (str " data-class=\"" ++ u ++ ['"']).length = u.length + 14 := by
    simp [str, List.length_append]
  rw [hlen]
  have hcanon : mComps (.lit (str "data-class=\"") :: .star notQ :: .lit (str "45") :: .star notQ ::
      .lit (str "\"") :: .star notGt :: .lit (str ">") :: tail)
      ((str " data-class=\"" ++ (u ++ '"' :: '>' :: r)).drop 1) = mComps tail r := by
    rw [show (str " data-class=\"" ++ (u ++ '"' :: '>' :: r)).drop 1 =
      str "data-class=\"" ++ (u ++ '"' :: '>' :: r) from rfl]
    rw [mComps_lit_eq]
    simp only [stripLit_refl]
    exact mComps_digitTail '4' '5' (by decide) (by decide) (by decide) (by decide) tail u r hu hsub
  apply goStar_eq_range
  · intro j hj
    rcases Nat.lt_or_ge j 13 with h10 | h10
    · interval_cases j
      · exact Or.inl (mComps_lit_none rfl)
      · exact Or.inr hcanon
      · exact Or.inl (mComps_lit_none rfl)
      · exact Or.inl (mComps_lit_none rfl)
      · exact Or.inl (mComps_lit_none rfl)
      · exact Or.inl (mComps_lit_none rfl)
      · exact Or.inl (mComps_lit_none rfl)
      · exact Or.inl (mComps_lit_none rfl)
      · exact Or.inl (mComps_lit_none rfl)
      · exact Or.inl (mComps_lit_none rfl)
      · exact Or.inl (mComps_lit_none rfl)
      · exact Or.inl (mComps_lit_none rfl)
      · exact Or.inl (mComps_lit_none rfl)
    · left
      obtain ⟨i, hi⟩ : ∃ i, j = 13 + i := ⟨j - 13, by omega⟩
      subst hi
      have hdropA : (str " data-class=\"" ++ (u ++ '"' :: '>' :: r)).drop (13 + i) =
          (u ++ '"' :: '>' :: r).drop i := by
        rw [show (13 : Nat) + i = (str " data-class=\"").length + i by simp [str]]
        exact List.drop_append i
      rw [hdropA]
      rcases Nat.lt_or_ge i (u.length + 1) with hiu | hiu
      · rcases Nat.lt_or_ge i u.length with hiu2 | hiu2
        · rw [List.drop_append_of_le_length (Nat.le_of_lt hiu2)]
          apply mComps_lit_none
          rw [show str "data-class=\"" = str "data-class=" ++ '"' :: [] from rfl]
          rw [stripLit_split_quote (by decide) (goodStr_drop hu i)]
          rw [if_neg (lowerL_ne_of_eq_mem (goodStr_drop hu i) (by decide))]
        · have : i = u.length := by omega
          subst this
          rw [List.drop_left]
          exact mComps_lit_none rfl
      · have : i = u.length + 1 := by omega
        subst this
        have hd : (u ++ '"' :: '>' :: r).drop (u.length + 1) = '>' :: r := by
          rw [List.drop_append 1]
          rfl
        rw [hd]
        exact mComps_lit_none rfl
  · exact ⟨1, by omega, hcanon⟩

/-- Processing `divPattern` core (after its lazy connector) against a canonical section tag whose
`data-id` contains `92`: the match consumes exactly the tag and the
rest of the pattern continues right after it. -/
theorem mComps_divTag (tail : List RComp) (u r : Str)
    (hu : goodStr u = true) (hsub : hasSub (str "78") u = true) :
    mComps (.lit (str "<div") :: .star notGt :: .lit (str "data-tag=\"") :: .star notQ ::
        .lit (str "78") :: .star notQ :: .lit (str "\"") :: .star notGt ::
        .lit (str ">") :: tail) (divTagT u ++ r) = mComps tail r := by
  have hinput : divTagT u ++ r =
      str "<div" ++ (str " data-tag=\"" ++ (u ++ '"' :: '>' :: r)) := by
    rw [divTagT, show str "<div data-tag=\"" = str "<div" ++ str " data-tag=\"" from rfl,
      show ('"' : Char) :: '>' :: r = str "\">" ++ r from rfl]
    simp [List.append_assoc]
  rw [hinput, mComps_lit_eq]
  simp only [stripLit_refl]
  rw [mComps_star_eq, starG]
  have hA : ∀ c ∈ str " data-tag=\"", notGt c = true := by decide
  have hgood : ∀ c ∈ u, notGt c = true := fun c hc => by
    simp only [goodStr, List.all_eq_true] at hu
    simp [notGt, (goodChar_ne (hu c hc)).2.2.1]
  have hregion : (str " data-tag=\"" ++ (u ++ '"' :: '>' :: r)).takeWhile notGt =
      str " data-tag=\"" ++ u ++ ['"'] := by
    rw [takeWhile_all_append notGt _ _ hA, takeWhile_all_append notGt u _ hgood]
    simp [List.takeWhile_cons, notGt]
  rw [hregion]
  have hlen : (str " data-tag=\"" ++ u ++ ['"']).length = u.length + 12 := by
    simp [str, List.length_append]
  rw [hlen]
  have hcanon : mComps (.lit (str "data-tag=\"") :: .star notQ :: .lit (str "78") :: .star notQ ::
      .lit (str "\"") :: .star notGt :: .lit (str ">") :: tail)
      ((str " data-tag=\"" ++ (u ++ '"' :: '>' :: r)).drop 1) = mComps tail r := by
    rw [show (str " data-tag=\"" ++ (u ++ '"' :: '>' :: r)).drop 1 =
      str "data-tag=\"" ++ (u ++ '"' :: '>' :: r) from rfl]
    rw [mComps_lit_eq]
    simp only [stripLit_refl]
    exact mComps_digitTail '7' '8' (by decide) (by decide) (by decide) (by decide) tail u r hu hsub
  apply goStar_eq_range
  · intro j hj
    rcases Nat.lt_or_ge j 11 with h10 | h10
    · interval_cases j
      · exact Or.inl (mComps_lit_none rfl)
      · exact Or.inr hcanon
      · exact Or.inl (mComps_lit_none rfl)
      · exact Or.inl (mComps_lit_none rfl)
      · exact Or.inl (mComps_lit_none rfl)
      · exact Or.inl (mComps_lit_none rfl)
      · exact Or.inl (mComps_lit_none rfl)
      · exact Or.inl (mComps_lit_none rfl)
      · exact Or.inl (mComps_lit_none rfl)
      · exact Or.inl (mComps_lit_none rfl)
      · exact Or.inl (mComps_lit_none rfl)
    · left
      obtain ⟨i, hi⟩ : ∃ i, j = 11 + i := ⟨j - 11, by omega⟩
      subst hi
      have hdropA : (str " data-tag=\"" ++ (u ++ '"' :: '>' :: r)).drop (11 + i) =
          (u ++ '"' :: '>' :: r).drop i := by
        rw [show (11 : Nat) + i = (str " data-tag=\"").length + i by simp [str]]
        exact List.drop_append i
      rw [hdropA]
      rcases Nat.lt_or_ge i (u.length + 1) with hiu | hiu
      · rcases Nat.lt_or_ge i u.length with hiu2 | hiu2
        · rw [List.drop_append_of_le_length (Nat.le_of_lt hiu2)]
          apply mComps_lit_none
          rw [show str "data-tag=\"" = str "data-tag=" ++ '"' :: [] from rfl]
          rw [stripLit_split_quote (by decide) (goodStr_drop hu i)]
          rw [if_neg (lowerL_ne_of_eq_mem (goodStr_drop hu i) (by decide))]
        · have : i = u.length := by omega
          subst this
          rw [List.drop_left]
          exact mComps_lit_none rfl
      · have : i = u.length + 1 := by omega
        subst this
        have hd : (u ++ '"' :: '>' :: r).drop (u.length + 1) = '>' :: r := by
          rw [List.drop_append 1]
          rfl
        rw [hd]
        exact mComps_lit_none rfl
  · exact ⟨1, by omega, hcanon⟩

/-- Processing the `bPattern` core (after its lazy connector) against a
canonical `b` tag: the match consumes the tag, captures exactly the
`value` attribute's content, and ends right after the tag. -/
theorem mComps_bTag (v r : Str) (hv : goodStr v = true) :
    mComps (.lit (str "<b") :: .star notGt :: .lit (str "class=\"ref\"") :: .star notGt ::
        .lit (str "value=\"") :: .cap notQ :: .lit (str "\"") :: .star notGt ::
        .lit (str ">") :: []) (bTagT v ++ r) = some (some v, r) := by
  have hgood : ∀ c ∈ v, notGt c = true := fun c hc => by
    simp only [goodStr, List.all_eq_true] at hv
    simp [notGt, (goodChar_ne (hv c hc)).2.2.1]
  -- innermost: the capture star and the closing of the tag
  have hcap : mComps (.cap notQ :: .lit (str "\"") :: .star notGt :: .lit (str ">") :: [])
      (v ++ '"' :: '>' :: r) = some (some v, r) := by
    rw [mComps_cap_eq, capG]
    have hregion : ((v ++ '"' :: '>' :: r).takeWhile notQ) = v := by
      rw [takeWhile_all_append notQ v _ (fun c hc => by
        simp only [goodStr, List.all_eq_true] at hv
        simp [notQ, (goodChar_ne (hv c hc)).1])]
      simp [List.takeWhile_cons, notQ]
    rw [hregion]
    have hk0 : mComps (.lit (str "\"") :: .star notGt :: .lit (str ">") :: [])
        ((v ++ '"' :: '>' :: r).drop v.length) = some (none, r) := by
      rw [List.drop_left, mComps_lit_eq]
      have h1 : stripLit (str "\"") ('"' :: '>' :: r) = some ('>' :: r) := rfl
      simp only [h1]
      rw [mComps_star_eq, starG]
      have h2 : (('>' :: r).takeWhile notGt) = [] := by simp [List.takeWhile_cons, notGt]
      rw [h2]
      simp only [List.length_nil, goStar]
      rw [mComps_lit_eq]
      have h3 : stripLit (str ">") ('>' :: r) = some r := rfl
      simp only [h3, mComps_nil_eq]
    have htake : (v ++ '"' :: '>' :: r).take v.length = v := List.take_left v _
    have hall : ∀ j, j ≤ v.length → j ≠ v.length →
        mComps (.lit (str "\"") :: .star notGt :: .lit (str ">") :: [])
          ((v ++ '"' :: '>' :: r).drop j) = none := by
      intro j hj hne
      have hjlt : j < v.length := by omega
      rw [List.drop_append_of_le_length (Nat.le_of_lt hjlt)]
      obtain ⟨c, t, hct, hgc, _⟩ := good_drop_cons hv hjlt
      rw [hct]
      apply mComps_lit_none
      have : chEq '"' c = false := goodChar_chEq_quote hgc
      simp [str, stripLit, this]
    have hres := goCap_unique
      (mComps (.lit (str "\"") :: .star notGt :: .lit (str ">") :: []))
      (v ++ '"' :: '>' :: r) v.length none r v.length (Nat.le_refl _) hall hk0
    rw [htake] at hres
    exact hres
  -- the value="..." literal and the star before it
  have hval : mComps (.lit (str "value=\"") :: .cap notQ :: .lit (str "\"") :: .star notGt ::
      .lit (str ">") :: []) ((str " value=\"" ++ (v ++ '"' :: '>' :: r)).drop 1) =
      some (some v, r) := by
    rw [show (str " value=\"" ++ (v ++ '"' :: '>' :: r)).drop 1 =
      str "value=\"" ++ (v ++ '"' :: '>' :: r) from rfl]
    rw [mComps_lit_eq]
    simp only [stripLit_refl]
    exact hcap
  have hmid : mComps (.star notGt :: .lit (str "value=\"") :: .cap notQ :: .lit (str "\"") ::
      .star notGt :: .lit (str ">") :: []) (str " value=\"" ++ (v ++ '"' :: '>' :: r)) =
      some (some v, r) := by
    rw [mComps_star_eq, starG]
    have hA : ∀ c ∈ str " value=\"", notGt c = true := by decide
    have hregion : ((str " value=\"" ++ (v ++ '"' :: '>' :: r)).takeWhile notGt) =
        str " value=\"" ++ v ++ ['"'] := by
      rw [takeWhile_all_append notGt _ _ hA, takeWhile_all_append notGt v _ hgood]
      simp [List.takeWhile_cons, notGt]
    rw [hregion]
    have hlen : (str " value=\"" ++ v ++ ['"']).length = v.length + 9 := by
      simp [str, List.length_append]
    rw [hlen]
    apply goStar_eq_range
    · intro j hj
      rcases Nat.lt_or_ge j 8 with h8 | h8
      · interval_cases j
        · exact Or.inl (mComps_lit_none rfl)
        · exact Or.inr hval
        · exact Or.inl (mComps_lit_none rfl)
        · exact Or.inl (mComps_lit_none rfl)
        · exact Or.inl (mComps_lit_none rfl)
        · exact Or.inl (mComps_lit_none rfl)
        · exact Or.inl (mComps_lit_none rfl)
        · exact Or.inl (mComps_lit_none rfl)
      · left
        obtain ⟨i, hi⟩ : ∃ i, j = 8 + i := ⟨j - 8, by omega⟩
        subst hi
        have hdropA : (str " value=\"" ++ (v ++ '"' :: '>' :: r)).drop (8 + i) =
            (v ++ '"' :: '>' :: r).drop i := by
          rw [show (8 : Nat) + i = (str " value=\"").length + i by simp [str]]
          exact List.drop_append i
        rw [hdropA]
        rcases Nat.lt_or_ge i (v.length + 1) with hiu | hiu
        · rw [List.drop_append_of_le_length (by omega)]
          apply mComps_lit_none
          rw [show str "value=\"" = str "value=" ++ '"' :: [] from rfl]
          rw [stripLit_split_quote (by decide) (goodStr_drop hv i)]
          rw [if_neg (lowerL_ne_of_eq_mem (goodStr_drop hv i) (by decide))]
        · have : i = v.length + 1 := by omega
          subst this
          have hd : (v ++ '"' :: '>' :: r).drop (v.length + 1) = '>' :: r := by
            rw [List.drop_append 1]
            rfl
          rw [hd]
          exact mComps_lit_none rfl
    · exact ⟨1, by omega, hval⟩
  -- the class="ref" literal at its canonical position
  have hcls : mComps (.lit (str "class=\"ref\"") :: .star notGt :: .lit (str "value=\"") ::
      .cap notQ :: .lit (str "\"") :: .star notGt :: .lit (str ">") :: [])
      ((str " class=\"ref\" value=\"" ++ (v ++ '"' :: '>' :: r)).drop 1) =
      some (some v, r) := by
    rw [show (str " class=\"ref\" value=\"" ++ (v ++ '"' :: '>' :: r)).drop 1 =
      str "class=\"ref\"" ++ (str " value=\"" ++ (v ++ '"' :: '>' :: r)) from rfl]
    rw [mComps_lit_eq]
    simp only [stripLit_refl]
    exact hmid
  -- the outer star over the whole attribute run of the b tag
  have hinput : bTagT v ++ r =
      str "<b" ++ (str " class=\"ref\" value=\"" ++ (v ++ '"' :: '>' :: r)) := by
    rw [bTagT, show str "<b class=\"ref\" value=\"" = str "<b" ++ str " class=\"ref\" value=\"" from rfl,
      show ('"' : Char) :: '>' :: r = str "\">" ++ r from rfl]
    simp [List.append_assoc]
  rw [hinput, mComps_lit_eq]
  simp only [stripLit_refl]
  rw [mComps_star_eq, starG]
  have hA : ∀ c ∈ str " class=\"ref\" value=\"", notGt c = true := by decide
  have hregion : ((str " class=\"ref\" value=\"" ++ (v ++ '"' :: '>' :: r)).takeWhile notGt) =
      str " class=\"ref\" value=\"" ++ v ++ ['"'] := by
    rw [takeWhile_all_append notGt _ _ hA, takeWhile_all_append notGt v _ hgood]
    simp [List.takeWhile_cons, notGt]
  rw [hregion]
  have hlen : (str " class=\"ref\" value=\"" ++ v ++ ['"']).length = v.length + 21 := by
    simp [str, List.length_append]
  rw [hlen]
  apply goStar_eq_range
  · intro j hj
    rcases Nat.lt_or_ge j 20 with h20 | h20
    · interval_cases j
      · exact Or.inl (mComps_lit_none rfl)
      · exact Or.inr hcls
      · exact Or.inl (mComps_lit_none rfl)
      · exact Or.inl (mComps_lit_none rfl)
      · exact Or.inl (mComps_lit_none rfl)
      · exact Or.inl (mComps_lit_none rfl)
      · exact Or.inl (mComps_lit_none rfl)
      · exact Or.inl (mComps_lit_none rfl)
      · exact Or.inl (mComps_lit_none rfl)
      · exact Or.inl (mComps_lit_none rfl)
      · exact Or.inl (mComps_lit_none rfl)
      · exact Or.inl (mComps_lit_none rfl)
      · exact Or.inl (mComps_lit_none rfl)
      · exact Or.inl (mComps_lit_none rfl)
      · exact Or.inl (mComps_lit_none rfl)
      · exact Or.inl (mComps_lit_none rfl)
      · exact Or.inl (mComps_lit_none rfl)
      · exact Or.inl (mComps_lit_none rfl)
      · exact Or.inl (mComps_lit_none rfl)
      · exact Or.inl (mComps_lit_none rfl)
    · left
      obtain ⟨i, hi⟩ : ∃ i, j = 20 + i := ⟨j - 20, by omega⟩
      subst hi
      have hdropA : (str " class=\"ref\" value=\"" ++ (v ++ '"' :: '>' :: r)).drop (20 + i) =
          (v ++ '"' :: '>' :: r).drop i := by
        rw [show (20 : Nat) + i = (str " class=\"ref\" value=\"").length + i by simp [str]]
        exact List.drop_append i
      rw [hdropA]
      rcases Nat.lt_or_ge i (v.length + 1) with hiu | hiu
      · rw [List.drop_append_of_le_length (by omega)]
        apply mComps_lit_none
        rw [show str "class=\"ref\"" = str "class=" ++ '"' :: str "ref\"" from rfl]
        rw [stripLit_split_quote (by decide) (goodStr_drop hv i)]
        rw [if_neg (lowerL_ne_of_eq_mem (goodStr_drop hv i) (by decide))]
      · have : i = v.length + 1 := by omega
        subst this
        have hd : (v ++ '"' :: '>' :: r).drop (v.length + 1) = '>' :: r := by
          rw [List.drop_append 1]
          rfl
        rw [hd]
        exact mComps_lit_none rfl
  · exact ⟨1, by omega, hcls⟩

theorem canonical_elim {st : CStruct} (h : canonical st = true) :
    goodStr st.secId = true ∧ hasSub (str "92") st.secId = true ∧
    goodStr st.artCls = true ∧ hasSub (str "45") st.artCls = true ∧
    goodStr st.divTag = true ∧ hasSub (str "78") st.divTag = true ∧
    st.bCls = str "ref" ∧ ∃ v, st.val = some v ∧ goodStr v = true := by
  rw [canonical] at h
  cases hval : st.val with
  | none => rw [hval] at h; simp [PATTERN.SECTION_DATA_ID, PATTERN.ARTICLE_DATA_CLASS,
      PATTERN.DIV_DATA_TAG, PATTERN.B_CLASS] at h
  | some v =>
    rw [hval] at h
    simp only [PATTERN.SECTION_DATA_ID, PATTERN.ARTICLE_DATA_CLASS, PATTERN.DIV_DATA_TAG,
      PATTERN.B_CLASS, Bool.and_eq_true, beq_iff_eq] at h
    obtain ⟨⟨⟨⟨⟨⟨⟨h1, h2⟩, h3⟩, h4⟩, h5⟩, h6⟩, h7⟩, h8⟩ := h
    exact ⟨h1, h2, h3, h4, h5, h6, h7, v, rfl, h8⟩


theorem bOpenT_canonical {st : CStruct} {v : Str} (hbcls : st.bCls = str "ref")
    (hval : st.val = some v) : bOpenT st = bTagT v := by
  rw [bOpenT, hbcls, hval, renderVal, bTagT]
  simp only [List.append_assoc]
  rfl

set_option maxHeartbeats 1000000

/-- The anchored pattern matches a canonical structure's opening markup
exactly: it consumes through the `b` tag, captures the value, and
leaves the rest of the document untouched. -/
theorem mComps_struct (st : CStruct) (v r : Str) (hcan : canonical st = true)
    (hval : st.val = some v) :
    mComps rxPattern (opensOf st ++ r) = some (some v, r) := by
  obtain ⟨hg1, hs1, hg2, hs2, hg3, hs3, hbcls, v2, hval2, hgv⟩ := canonical_elim hcan
  rw [hval] at hval2
  injection hval2 with hv2
  subst hv2
  have hsplit : opensOf st ++ r =
      secTagT st.secId ++ (artTagT st.artCls ++ (divTagT st.divTag ++ (bTagT v ++ r))) := by
    rw [opensOf, bOpenT_canonical hbcls hval]
    simp [List.append_assoc]
  have hpatt : rxPattern = sectionPatt ++ (articlePatt ++ (divPatt ++ bPatt)) := by
    rw [rxPattern]
    simp [List.append_assoc]
  rw [hsplit, hpatt]
  rw [mComps_secTag (articlePatt ++ (divPatt ++ bPatt)) st.secId _ hg1 hs1]
  have hb : mComps bPatt (bTagT v ++ r) = some (some v, r) := by
    rw [show bPatt = .anyLazy :: (.lit (str "<b") :: .star notGt :: .lit (str "class=\"ref\"") ::
      .star notGt :: .lit (str "value=\"") :: .cap notQ :: .lit (str "\"") :: .star notGt ::
      .lit (str ">") :: []) from rfl, mComps_lazy_eq]
    exact lazyA_here (mComps_bTag v r hgv)
  have hd : mComps (divPatt ++ bPatt) (divTagT st.divTag ++ (bTagT v ++ r)) =
      some (some v, r) := by
    rw [show divPatt ++ bPatt = .anyLazy :: (.lit (str "<div") :: .star notGt ::
      .lit (str "data-tag=\"") :: .star notQ :: .lit (str "78") :: .star notQ ::
      .lit (str "\"") :: .star notGt :: .lit (str ">") :: bPatt) from rfl, mComps_lazy_eq]
    apply lazyA_here
    rw [mComps_divTag bPatt st.divTag _ hg3 hs3]
    exact hb
  rw [show articlePatt ++ (divPatt ++ bPatt) = .anyLazy :: (.lit (str "<article") ::
    .star notGt :: .lit (str "data-class=\"") :: .star notQ :: .lit (str "45") :: .star notQ ::
    .lit (str "\"") :: .star notGt :: .lit (str ">") :: (divPatt ++ bPatt)) from rfl,
    mComps_lazy_eq]
  apply lazyA_here
  rw [mComps_articleTag (divPatt ++ bPatt) st.artCls _ hg2 hs2]
  exact hd

theorem skipOpen (x : Str) :
    findFrom rxPattern (str "<html><body>" ++ x) = findFrom rxPattern x := by
  rw [show str "<html><body>" ++ x =
    '<' :: 'h' :: 't' :: 'm' :: 'l' :: '>' :: '<' :: 'b' :: 'o' :: 'd' :: 'y' :: '>' :: x from rfl]
  have e0 : mComps rxPattern ('<' :: 'h' :: 't' :: 'm' :: 'l' :: '>' :: '<' :: 'b' :: 'o' :: 'd' :: 'y' :: '>' :: x) = none := rfl
  rw [findFrom_cons_of_none e0]
  have e1 : mComps rxPattern ('h' :: 't' :: 'm' :: 'l' :: '>' :: '<' :: 'b' :: 'o' :: 'd' :: 'y' :: '>' :: x) = none := rfl
  rw [findFrom_cons_of_none e1]
  have e2 : mComps rxPattern ('t' :: 'm' :: 'l' :: '>' :: '<' :: 'b' :: 'o' :: 'd' :: 'y' :: '>' :: x) = none := rfl
  rw [findFrom_cons_of_none e2]
  have e3 : mComps rxPattern ('m' :: 'l' :: '>' :: '<' :: 'b' :: 'o' :: 'd' :: 'y' :: '>' :: x) = none := rfl
  rw [findFrom_cons_of_none e3]
  have e4 : mComps rxPattern ('l' :: '>' :: '<' :: 'b' :: 'o' :: 'd' :: 'y' :: '>' :: x) = none := rfl
  rw [findFrom_cons_of_none e4]
  have e5 : mComps rxPattern ('>' :: '<' :: 'b' :: 'o' :: 'd' :: 'y' :: '>' :: x) = none := rfl
  rw [findFrom_cons_of_none e5]
  have e6 : mComps rxPattern ('<' :: 'b' :: 'o' :: 'd' :: 'y' :: '>' :: x) = none := rfl
  rw [findFrom_cons_of_none e6]
  have e7 : mComps rxPattern ('b' :: 'o' :: 'd' :: 'y' :: '>' :: x) = none := rfl
  rw [findFrom_cons_of_none e7]
  have e8 : mComps rxPattern ('o' :: 'd' :: 'y' :: '>' :: x) = none := rfl
  rw [findFrom_cons_of_none e8]
  have e9 : mComps rxPattern ('d' :: 'y' :: '>' :: x) = none := rfl
  rw [findFrom_cons_of_none e9]
  have e10 : mComps rxPattern ('y' :: '>' :: x) = none := rfl
  rw [findFrom_cons_of_none e10]
  have e11 : mComps rxPattern ('>' :: x) = none := rfl
  rw [findFrom_cons_of_none e11]

theorem skipClosers (x : Str) :
    findFrom rxPattern (closers ++ x) = findFrom rxPattern x := by
  rw [show closers ++ x =
    '<' :: '/' :: 'b' :: '>' :: '<' :: '/' :: 'd' :: 'i' :: 'v' :: '>' :: '<' :: '/' :: 'a' :: 'r' :: 't' :: 'i' :: 'c' :: 'l' :: 'e' :: '>' :: '<' :: '/' :: 's' :: 'e' :: 'c' :: 't' :: 'i' :: 'o' :: 'n' :: '>' :: x from rfl]
  have e0 : mComps rxPattern ('<' :: '/' :: 'b' :: '>' :: '<' :: '/' :: 'd' :: 'i' :: 'v' :: '>' :: '<' :: '/' :: 'a' :: 'r' :: 't' :: 'i' :: 'c' :: 'l' :: 'e' :: '>' :: '<' :: '/' :: 's' :: 'e' :: 'c' :: 't' :: 'i' :: 'o' :: 'n' :: '>' :: x) = none := rfl
  rw [findFrom_cons_of_none e0]
  have e1 : mComps rxPattern ('/' :: 'b' :: '>' :: '<' :: '/' :: 'd' :: 'i' :: 'v' :: '>' :: '<' :: '/' :: 'a' :: 'r' :: 't' :: 'i' :: 'c' :: 'l' :: 'e' :: '>' :: '<' :: '/' :: 's' :: 'e' :: 'c' :: 't' :: 'i' :: 'o' :: 'n' :: '>' :: x) = none := rfl
  rw [findFrom_cons_of_none e1]
  have e2 : mComps rxPattern ('b' :: '>' :: '<' :: '/' :: 'd' :: 'i' :: 'v' :: '>' :: '<' :: '/' :: 'a' :: 'r' :: 't' :: 'i' :: 'c' :: 'l' :: 'e' :: '>' :: '<' :: '/' :: 's' :: 'e' :: 'c' :: 't' :: 'i' :: 'o' :: 'n' :: '>' :: x) = none := rfl
  rw [findFrom_cons_of_none e2]
  have e3 : mComps rxPattern ('>' :: '<' :: '/' :: 'd' :: 'i' :: 'v' :: '>' :: '<' :: '/' :: 'a' :: 'r' :: 't' :: 'i' :: 'c' :: 'l' :: 'e' :: '>' :: '<' :: '/' :: 's' :: 'e' :: 'c' :: 't' :: 'i' :: 'o' :: 'n' :: '>' :: x) = none := rfl
  rw [findFrom_cons_of_none e3]
  have e4 : mComps rxPattern ('<' :: '/' :: 'd' :: 'i' :: 'v' :: '>' :: '<' :: '/' :: 'a' :: 'r' :: 't' :: 'i' :: 'c' :: 'l' :: 'e' :: '>' :: '<' :: '/' :: 's' :: 'e' :: 'c' :: 't' :: 'i' :: 'o' :: 'n' :: '>' :: x) = none := rfl
  rw [findFrom_cons_of_none e4]
  have e5 : mComps rxPattern ('/' :: 'd' :: 'i' :: 'v' :: '>' :: '<' :: '/' :: 'a' :: 'r' :: 't' :: 'i' :: 'c' :: 'l' :: 'e' :: '>' :: '<' :: '/' :: 's' :: 'e' :: 'c' :: 't' :: 'i' :: 'o' :: 'n' :: '>' :: x) = none := rfl
  rw [findFrom_cons_of_none e5]
  have e6 : mComps rxPattern ('d' :: 'i' :: 'v' :: '>' :: '<' :: '/' :: 'a' :: 'r' :: 't' :: 'i' :: 'c' :: 'l' :: 'e' :: '>' :: '<' :: '/' :: 's' :: 'e' :: 'c' :: 't' :: 'i' :: 'o' :: 'n' :: '>' :: x) = none := rfl
  rw [findFrom_cons_of_none e6]
  have e7 : mComps rxPattern ('i' :: 'v' :: '>' :: '<' :: '/' :: 'a' :: 'r' :: 't' :: 'i' :: 'c' :: 'l' :: 'e' :: '>' :: '<' :: '/' :: 's' :: 'e' :: 'c' :: 't' :: 'i' :: 'o' :: 'n' :: '>' :: x) = none := rfl
  rw [findFrom_cons_of_none e7]
  have e8 : mComps rxPattern ('v' :: '>' :: '<' :: '/' :: 'a' :: 'r' :: 't' :: 'i' :: 'c' :: 'l' :: 'e' :: '>' :: '<' :: '/' :: 's' :: 'e' :: 'c' :: 't' :: 'i' :: 'o' :: 'n' :: '>' :: x) = none := rfl
  rw [findFrom_cons_of_none e8]
  have e9 : mComps rxPattern ('>' :: '<' :: '/' :: 'a' :: 'r' :: 't' :: 'i' :: 'c' :: 'l' :: 'e' :: '>' :: '<' :: '/' :: 's' :: 'e' :: 'c' :: 't' :: 'i' :: 'o' :: 'n' :: '>' :: x) = none := rfl
  rw [findFrom_cons_of_none e9]
  have e10 : mComps rxPattern ('<' :: '/' :: 'a' :: 'r' :: 't' :: 'i' :: 'c' :: 'l' :: 'e' :: '>' :: '<' :: '/' :: 's' :: 'e' :: 'c' :: 't' :: 'i' :: 'o' :: 'n' :: '>' :: x) = none := rfl
  rw [findFrom_cons_of_none e10]
  have e11 : mComps rxPattern ('/' :: 'a' :: 'r' :: 't' :: 'i' :: 'c' :: 'l' :: 'e' :: '>' :: '<' :: '/' :: 's' :: 'e' :: 'c' :: 't' :: 'i' :: 'o' :: 'n' :: '>' :: x) = none := rfl
  rw [findFrom_cons_of_none e11]
  have e12 : mComps rxPattern ('a' :: 'r' :: 't' :: 'i' :: 'c' :: 'l' :: 'e' :: '>' :: '<' :: '/' :: 's' :: 'e' :: 'c' :: 't' :: 'i' :: 'o' :: 'n' :: '>' :: x) = none := rfl
  rw [findFrom_cons_of_none e12]
  have e13 : mComps rxPattern ('r' :: 't' :: 'i' :: 'c' :: 'l' :: 'e' :: '>' :: '<' :: '/' :: 's' :: 'e' :: 'c' :: 't' :: 'i' :: 'o' :: 'n' :: '>' :: x) = none := rfl
  rw [findFrom_cons_of_none e13]
  have e14 : mComps rxPattern ('t' :: 'i' :: 'c' :: 'l' :: 'e' :: '>' :: '<' :: '/' :: 's' :: 'e' :: 'c' :: 't' :: 'i' :: 'o' :: 'n' :: '>' :: x) = none := rfl
  rw [findFrom_cons_of_none e14]
  have e15 : mComps rxPattern ('i' :: 'c' :: 'l' :: 'e' :: '>' :: '<' :: '/' :: 's' :: 'e' :: 'c' :: 't' :: 'i' :: 'o' :: 'n' :: '>' :: x) = none := rfl
  rw [findFrom_cons_of_none e15]
  have e16 : mComps rxPattern ('c' :: 'l' :: 'e' :: '>' :: '<' :: '/' :: 's' :: 'e' :: 'c' :: 't' :: 'i' :: 'o' :: 'n' :: '>' :: x) = none := rfl
  rw [findFrom_cons_of_none e16]
  have e17 : mComps rxPattern ('l' :: 'e' :: '>' :: '<' :: '/' :: 's' :: 'e' :: 'c' :: 't' :: 'i' :: 'o' :: 'n' :: '>' :: x) = none := rfl
  rw [findFrom_cons_of_none e17]
  have e18 : mComps rxPattern ('e' :: '>' :: '<' :: '/' :: 's' :: 'e' :: 'c' :: 't' :: 'i' :: 'o' :: 'n' :: '>' :: x) = none := rfl
  rw [findFrom_cons_of_none e18]
  have e19 : mComps rxPattern ('>' :: '<' :: '/' :: 's' :: 'e' :: 'c' :: 't' :: 'i' :: 'o' :: 'n' :: '>' :: x) = none := rfl
  rw [findFrom_cons_of_none e19]
  have e20 : mComps rxPattern ('<' :: '/' :: 's' :: 'e' :: 'c' :: 't' :: 'i' :: 'o' :: 'n' :: '>' :: x) = none := rfl
  rw [findFrom_cons_of_none e20]
  have e21 : mComps rxPattern ('/' :: 's' :: 'e' :: 'c' :: 't' :: 'i' :: 'o' :: 'n' :: '>' :: x) = none := rfl
  rw [findFrom_cons_of_none e21]
  have e22 : mComps rxPattern ('s' :: 'e' :: 'c' :: 't' :: 'i' :: 'o' :: 'n' :: '>' :: x) = none := rfl
  rw [findFrom_cons_of_none e22]
  have e23 : mComps rxPattern ('e' :: 'c' :: 't' :: 'i' :: 'o' :: 'n' :: '>' :: x) = none := rfl
  rw [findFrom_cons_of_none e23]
  have e24 : mComps rxPattern ('c' :: 't' :: 'i' :: 'o' :: 'n' :: '>' :: x) = none := rfl
  rw [findFrom_cons_of_none e24]
  have e25 : mComps rxPattern ('t' :: 'i' :: 'o' :: 'n' :: '>' :: x) = none := rfl
  rw [findFrom_cons_of_none e25]
  have e26 : mComps rxPattern ('i' :: 'o' :: 'n' :: '>' :: x) = none := rfl
  rw [findFrom_cons_of_none e26]
  have e27 : mComps rxPattern ('o' :: 'n' :: '>' :: x) = none := rfl
  rw [findFrom_cons_of_none e27]
  have e28 : mComps rxPattern ('n' :: '>' :: x) = none := rfl
  rw [findFrom_cons_of_none e28]
  have e29 : mComps rxPattern ('>' :: x) = none := rfl
  rw [findFrom_cons_of_none e29]

theorem endNone : findFrom rxPattern (str "</body></html>") = none := by decide

theorem renderStruct_len (st : CStruct) : 1 ≤ (renderStruct st).length := by
  simp [renderStruct, closers, str, List.length_append]

theorem flatten_structs_len (sts : List CStruct) :
    sts.length ≤ ((sts.map renderStruct).flatten).length := by
  induction sts with
  | nil => simp
  | cons st rest ih =>
    simp only [List.map_cons, List.flatten_cons, List.length_append, List.length_cons]
    have := renderStruct_len st
    omega

/-- The global exec loop over the serialised structures: one match per
canonical structure, in document order, with any fuel covering the
number of structures. -/
theorem execAll_structs (sts : List CStruct) (h : ∀ st ∈ sts, canonical st = true) :
    ∀ fuel, sts.length + 1 ≤ fuel →
      execAll rxPattern fuel ((sts.map renderStruct).flatten ++ str "</body></html>") =
        valsOf sts := by
  induction sts with
  | nil =>
    intro fuel hfuel
    obtain ⟨f, rfl⟩ : ∃ f, fuel = f + 1 := ⟨fuel - 1, by omega⟩
    simp only [List.map_nil, List.flatten_nil, List.nil_append]
    rw [execAll, endNone]
    rfl
  | cons st rest ih =>
    intro fuel hfuel
    obtain ⟨f, rfl⟩ : ∃ f, fuel = f + 1 := ⟨fuel - 1, by omega⟩
    have hcan := h st (List.mem_cons_self st rest)
    obtain ⟨v, hval, hgv⟩ := (canonical_elim hcan).2.2.2.2.2.2.2
    have htext : ((st :: rest).map renderStruct).flatten ++ str "</body></html>" =
        opensOf st ++ (closers ++ ((rest.map renderStruct).flatten ++ str "</body></html>")) := by
      simp only [List.map_cons, List.flatten_cons, renderStruct, List.append_assoc]
    rw [htext]
    simp only [execAll, findFrom_here (mComps_struct st v _ hcan hval), Option.getD_some]
    have hrest := ih (fun t ht => h t (List.mem_cons_of_mem st ht))
    obtain ⟨f2, rfl⟩ : ∃ f2, f = f2 + 1 := ⟨f - 1, by simp at hfuel; omega⟩
    rw [execAll_skip (skipClosers _), hrest (f2 + 1) (by simp at hfuel; omega)]
    simp [valsOf, hval]

/-- `RegexStrategy.extract` on a canonical document returns exactly the
structures' values in document order. -/
theorem regex_doc (sts : List CStruct) (h : ∀ st ∈ sts, canonical st = true) :
    RegexStrategy.extract (docText sts) = valsOf sts := by
  rw [RegexStrategy.extract, docText]
  have hassoc : str "<html><body>" ++ ((sts.map renderStruct).flatten) ++ str "</body></html>" =
      str "<html><body>" ++ (((sts.map renderStruct).flatten) ++ str "</body></html>") := by
    simp [List.append_assoc]
  rw [hassoc, execAll_skip (skipOpen _)]
  apply execAll_structs sts h
  have h1 := flatten_structs_len sts
  simp only [List.length_append, str]
  omega

theorem picks_canonical {st : CStruct} (h : canonical st = true) :
    jsdomPick st = st.val.toList ∧ xpathPick st = st.val.toList := by
  obtain ⟨hg1, hs1, hg2, hs2, hg3, hs3, hbcls, v, hval, hgv⟩ := canonical_elim h
  have hm : structMatches st = true := by
    simp [structMatches, PATTERN.SECTION_DATA_ID, PATTERN.ARTICLE_DATA_CLASS,
      PATTERN.DIV_DATA_TAG, hs1, hs2, hs3]
  constructor
  · rw [jsdomPick, hm, hbcls]
    rw [if_pos (by decide)]
  · rw [xpathPick, hm, hbcls]
    rw [if_pos (by decide)]

theorem flatten_picks_jsdom (sts : List CStruct) (h : ∀ st ∈ sts, canonical st = true) :
    (sts.map jsdomPick).flatten = valsOf sts := by
  induction sts with
  | nil => simp [valsOf]
  | cons st rest ih =>
    have hc := h st (List.mem_cons_self st rest)
    obtain ⟨v, hval, _⟩ := (canonical_elim hc).2.2.2.2.2.2.2
    simp only [List.map_cons, List.flatten_cons, (picks_canonical hc).1,
      ih (fun t ht => h t (List.mem_cons_of_mem st ht))]
    simp [valsOf, hval]

theorem flatten_picks_xpath (sts : List CStruct) (h : ∀ st ∈ sts, canonical st = true) :
    (sts.map xpathPick).flatten = valsOf sts := by
  induction sts with
  | nil => simp [valsOf]
  | cons st rest ih =>
    have hc := h st (List.mem_cons_self st rest)
    obtain ⟨v, hval, _⟩ := (canonical_elim hc).2.2.2.2.2.2.2
    simp only [List.map_cons, List.flatten_cons, (picks_canonical hc).2,
      ih (fun t ht => h t (List.mem_cons_of_mem st ht))]
    simp [valsOf, hval]

/-- C1 counterexample: a document with two well-formed matching
structures, values `a` then `b`; the first `b` tag writes `value`
before `class`.  The tree-based techniques return both values in
document order, but the Regex technique — which requires `class` to
precede `value` in text order — succeeds with the wrong sequence
`["b"]`. -/
theorem regex_attr_order_cex :
    JSDOMStrategy.extract ceSwapTree = [str "a", str "b"] ∧
    XPathStrategy.extract ceSwapTree = [str "a", str "b"] ∧
    RegexStrategy.extract ceSwapText = [str "b"] ∧
    ([str "b"] : List Str) ≠ [str "a", str "b"] := by
  refine ⟨by decide, by decide, by decide, by decide⟩

theorem extract_canonical_all (sts : List CStruct)
    (h : ∀ st ∈ sts, canonical st = true) :
    JSDOMStrategy.extract (docTree sts) = valsOf sts ∧
    XPathStrategy.extract (docTree sts) = valsOf sts ∧
    RegexStrategy.extract (docText sts) = valsOf sts := by
  refine ⟨?_, ?_, regex_doc sts h⟩
  · rw [jsdom_doc, flatten_picks_jsdom sts h]
  · rw [xpath_doc, flatten_picks_xpath sts h]

/-- C1 amended: on documents made of canonically-rendered well-formed
matching structures (attributes in the order data-id / data-class /
data-tag and class before value, attribute values free of the `"<>=`
delimiters), all three techniques return exactly the values v1..vN in
document order. -/
theorem extraction_document_order (sts : List CStruct)
    (h : ∀ st ∈ sts, canonical st = true) :
    JSDOMStrategy.extract (docTree sts) = valsOf sts ∧
    XPathStrategy.extract (docTree sts) = valsOf sts ∧
    RegexStrategy.extract (docText sts) = valsOf sts :=
  extract_canonical_all sts h

/-- Witness for C1 amended at a concrete two-structure document. -/
theorem extraction_document_order_witness :
    JSDOMStrategy.extract (docTree [oneSt (str "ref") (some (str "a")),
      oneSt (str "ref") (some (str "b"))]) = [str "a", str "b"] ∧
    XPathStrategy.extract (docTree [oneSt (str "ref") (some (str "a")),
      oneSt (str "ref") (some (str "b"))]) = [str "a", str "b"] ∧
    RegexStrategy.extract (docText [oneSt (str "ref") (some (str "a")),
      oneSt (str "ref") (some (str "b"))]) = [str "a", str "b"] := by
  have h := extraction_document_order
    [oneSt (str "ref") (some (str "a")), oneSt (str "ref") (some (str "b"))]
    (by intro st hst; fin_cases hst <;> decide)
  simpa [valsOf, oneSt] using h

/-- C4 counterexample: a `b` element with class `ref bold` — not
exactly `ref` — still contributes its value under the JSDOM technique,
whose selector `b.ref` matches class-list tokens rather than the whole
attribute. -/
theorem jsdom_class_token_cex :
    JSDOMStrategy.extract (docTree [oneSt (str "ref bold") (some (str "x"))]) = [str "x"] ∧
    str "ref bold" ≠ str "ref" := by
  refine ⟨by decide, by decide⟩

/-- C4 amended: the XPath technique matches a `b` only when its class
attribute equals `ref` exactly, and the Regex technique only when the
literal `class="ref"` appears; the JSDOM technique instead matches
whenever `ref` is one of the whitespace-separated class tokens, so
`class="ref bold"` contributes its value under JSDOM (and only JSDOM)
while `class="reference"` contributes nothing under any technique. -/
theorem b_class_matching (c : Str) (v : Str) :
    (JSDOMStrategy.extract (docTree [oneSt c (some v)]) =
      if memStr PATTERN.B_CLASS (splitWS c) then [v] else []) ∧
    (XPathStrategy.extract (docTree [oneSt c (some v)]) =
      if c = PATTERN.B_CLASS then [v] else []) ∧
    RegexStrategy.extract (docText [oneSt (str "ref") (some (str "x"))]) = [str "x"] ∧
    RegexStrategy.extract (docText [oneSt (str "reference") (some (str "x"))]) = [] ∧
    RegexStrategy.extract (docText [oneSt (str "ref bold") (some (str "x"))]) = [] := by
  have hm : structMatches (oneSt c (some v)) = true := rfl
  refine ⟨?_, ?_, by decide, by decide, by decide⟩
  · rw [jsdom_doc]
    simp only [List.map_cons, List.map_nil, List.flatten_cons, List.flatten_nil,
      List.append_nil, jsdomPick, hm, Bool.true_and]
    by_cases hmem : memStr PATTERN.B_CLASS (splitWS ((oneSt c (some v)).bCls)) <;>
      simp [oneSt, Option.toList] at hmem ⊢
  · rw [xpath_doc]
    simp only [List.map_cons, List.map_nil, List.flatten_cons, List.flatten_nil,
      List.append_nil, xpathPick, hm, Bool.true_and]
    by_cases hc : c = PATTERN.B_CLASS <;> simp [oneSt, Option.toList, hc]

/-- C5: a matched `b` contributes its `value` attribute exactly when
the attribute is present — a present-but-empty `value=""` contributes
the empty string (the theorem's `v` may be empty), and a `b` with no
`value` attribute contributes nothing, under all three techniques. -/
theorem value_attr_iff_present (v : Str) (hgv : goodStr v = true) :
    (JSDOMStrategy.extract (docTree [oneSt (str "ref") (some v)]) = [v] ∧
     XPathStrategy.extract (docTree [oneSt (str "ref") (some v)]) = [v] ∧
     RegexStrategy.extract (docText [oneSt (str "ref") (some v)]) = [v]) ∧
    (JSDOMStrategy.extract (docTree [oneSt (str "ref") none]) = [] ∧
     XPathStrategy.extract (docTree [oneSt (str "ref") none]) = [] ∧
     RegexStrategy.extract (docText [oneSt (str "ref") none]) = []) := by
  have hcan : canonical (oneSt (str "ref") (some v)) = true := by
    rw [show canonical (oneSt (str "ref") (some v)) = goodStr v from rfl]
    exact hgv
  have h := extract_canonical_all [oneSt (str "ref") (some v)]
    (by intro st hst; rw [List.mem_singleton] at hst; subst hst; exact hcan)
  refine ⟨?_, by decide, by decide, by decide⟩
  simpa [valsOf, oneSt] using h

/-- Witness for C5 at the empty value string: `value=""` is present and
contributes the empty string under every technique. -/
theorem value_attr_iff_present_witness :
    JSDOMStrategy.extract (docTree [oneSt (str "ref") (some [])]) = [[]] ∧
    XPathStrategy.extract (docTree [oneSt (str "ref") (some [])]) = [[]] ∧
    RegexStrategy.extract (docText [oneSt (str "ref") (some [])]) = [[]] :=
  (value_attr_iff_present [] (by decide)).1
